import Mathlib

/-!
# Verification of `log/standardLogger.go` (anzdaddy/pkg)

A shallow embedding of the standard logger: the two formatters
(`standardFormat.Format`, `jsonFormat.Format`), the field renderer
`getFormattedField`, the logger operations (`NewStandardLogger`, `PutFields`,
`SetConfig`, `Copy`) over an explicit heap of logger objects, and the logging calls
(`Debug`, `Debugf`, `Info`, `Infof`), whose result is the list of writes they make.

Conventions of the embedding
* Go strings and byte slices are Lean `String`s; `strings.Builder` writes are appends.
* A Go panic is the error side of `Except Panic`.
* Library code the logger calls (package `time`, `fmt`, `logrus`, `frozen`) is modelled
  by the small definitions at the top of the file; `json.Marshal`, `fmt.Sprintf` and the
  clock are parameters (`Runtime`).
-/

namespace Log

/-! ## Go values and the `fmt` verb `%v` -/

/-- Ways in which the embedded code can panic. -/
inductive Panic where
  /-- A failed type assertion `x.(T)`. -/
  | typeAssertion
  /-- The explicit `panic("unknown configuration")` of `SetConfig`. -/
  | unknownConfiguration
  /-- Dereference of a pointer that does not address a live object. -/
  | nilDereference
  /-- The `panic(&entry)` with which logrus ends an entry logged at `PanicLevel`. -/
  | entryPanic
  deriving DecidableEq, Repr

/-- The message carried by a panic. -/
def Panic.message : Panic → String
  | .typeAssertion => "interface conversion"
  | .unknownConfiguration => "unknown configuration"
  | .nilDereference => "invalid memory address or nil pointer dereference"
  | .entryPanic => "logrus entry"

/-- A Go value stored as a key or a value of a `frozen.Map` (an `interface{}`), by its
dynamic type: `str` is a `string`, `int` is an `int` and nothing else, `int32` is an
`int32`, which is what a rune literal such as `'k'` is, and `bool` is a `bool`. A value of
any other dynamic type is `other`, carried with its `%v` rendering. -/
inductive Value where
  | str (s : String)
  | int (n : Int)
  | int32 (n : Int)
  | bool (b : Bool)
  | other (shown : String)
  deriving DecidableEq, Repr

/-- Decimal rendering of a Go integer. -/
def formatInt (i : Int) : String :=
  if i < 0 then "-" ++ Nat.repr i.natAbs else Nat.repr i.natAbs

/-- The rendering `fmt.Sprintf("%v", v)`. -/
def Value.format : Value → String
  | .str s => s
  | .int n => formatInt n
  | .int32 n => formatInt n
  | .bool b => if b then "true" else "false"
  | .other shown => shown

/-- The type assertion `v.(int)`: it succeeds on a value of dynamic type `int` only, and
panics on every other one, an `int32` included. -/
def Value.assertInt : Value → Except Panic Int
  | .int n => .ok n
  | _ => .error .typeAssertion

/-- The type assertion `v.(string)`. -/
def Value.assertString : Value → Except Panic String
  | .str s => .ok s
  | _ => .error .typeAssertion

/-! ## `frozen.Map` -/

/-- A `frozen.Map`: its key/value pairs in the order `Range()` iterates them, with pairwise
distinct keys. -/
structure frozen.Map where
  kvs : List (Value × Value)
  nodup : (kvs.map Prod.fst).Nodup

/-- The empty map, `frozen.NewMap()` or the zero value `frozen.Map{}`. -/
def frozen.NewMap : frozen.Map := ⟨[], List.nodup_nil⟩

/-- The number of entries, `m.Count()`. -/
def frozen.Map.Count (m : frozen.Map) : Nat := m.kvs.length

/-- The sequence of pairs that `m.Range()` steps through. -/
def frozen.Map.Range (m : frozen.Map) : List (Value × Value) := m.kvs

/-- The keys of a map, in iteration order. -/
def frozen.Map.Keys (m : frozen.Map) : List Value := m.kvs.map Prod.fst

/-- The value a map holds for a key, `m.Get(k)`. -/
def frozen.Map.Get (m : frozen.Map) (k : Value) : Option Value :=
  (m.kvs.find? (fun kv => kv.1 == k)).map Prod.snd

/-! ## Package `time`: the layout `RFC3339Nano` -/

/-- A `time.Time` as the calendar fields `Format` reads from it: date, clock, nanosecond
(`0 ≤ Nanosecond < 10^9`) and the zone offset in seconds east of UTC. -/
structure Time where
  Year : Int
  Month : Nat
  Day : Nat
  Hour : Nat
  Minute : Nat
  Second : Nat
  Nanosecond : Nat
  Offset : Int
  deriving DecidableEq, Repr

/-- The helper `appendInt` of package `time`: the decimal digits of `x`, zero-padded to
`width`, after a minus sign when `x` is negative. -/
def appendInt (b : String) (x : Int) (width : Nat) : String :=
  let digits := Nat.repr x.natAbs
  let b := if x < 0 then b ++ "-" else b
  b ++ String.mk (List.replicate (width - digits.length) '0') ++ digits

/-- The helper `formatNano` of package `time` for the verb `.999999999`: nine fractional
digits with trailing zeros trimmed, and nothing at all when every digit is zero. -/
def formatNano (b : String) (nanosec : Nat) : String :=
  let buf := (appendInt "" (Int.ofNat (nanosec % 1000000000)) 9).data
  let digits := (buf.reverse.dropWhile (fun c => c == '0')).reverse
  if digits.isEmpty then b else b ++ "." ++ String.mk digits

/-- The zone verb `Z07:00`: `Z` for UTC, otherwise the signed offset as `hh:mm`. -/
def formatZone (b : String) (offset : Int) : String :=
  if offset = 0 then b ++ "Z"
  else
    let zone := Int.tdiv offset 60
    let b := if zone < 0 then b ++ "-" else b ++ "+"
    let zone := zone.natAbs
    let b := appendInt b (Int.ofNat (zone / 60)) 2
    let b := b ++ ":"
    appendInt b (Int.ofNat (zone % 60)) 2

/-- The rendering `t.Format(time.RFC3339Nano)`, layout
`2006-01-02T15:04:05.999999999Z07:00`. -/
def Time.FormatRFC3339Nano (t : Time) : String :=
  let b := appendInt "" t.Year 4
  let b := b ++ "-"
  let b := appendInt b (Int.ofNat t.Month) 2
  let b := b ++ "-"
  let b := appendInt b (Int.ofNat t.Day) 2
  let b := b ++ "T"
  let b := appendInt b (Int.ofNat t.Hour) 2
  let b := b ++ ":"
  let b := appendInt b (Int.ofNat t.Minute) 2
  let b := b ++ ":"
  let b := appendInt b (Int.ofNat t.Second) 2
  let b := formatNano b t.Nanosecond
  formatZone b t.Offset

/-! ## Package `logrus`: levels and entries -/

/-- A `logrus.Level` (a `uint32`): 0 panic, 1 fatal, 2 error, 3 warning, 4 info, 5 debug,
6 trace. A larger number is more verbose. -/
abbrev Level := Nat

/-- The level `logrus.PanicLevel`. -/
def PanicLevel : Level := 0

/-- The level `logrus.TraceLevel`, the most verbose one. -/
def TraceLevel : Level := 6

/-- The level `logrus.InfoLevel`. -/
def InfoLevel : Level := 4

/-- The level `logrus.DebugLevel`. -/
def DebugLevel : Level := 5

/-- The name of a level, `level.String()`. -/
def Level.String (level : Level) : String :=
  match level with
  | 0 => "panic"
  | 1 => "fatal"
  | 2 => "error"
  | 3 => "warning"
  | 4 => "info"
  | 5 => "debug"
  | 6 => "trace"
  | _ => "unknown"

/-- The function `strings.ToUpper`, here only ever applied to level names. -/
def ToUpper (s : String) : String := String.mk (s.data.map Char.toUpper)

/-- A value stored in `logrus.Fields` (a `map[string]interface{}`): the nil interface, a
`frozen.Map`, or a value of another type. -/
inductive Any where
  | nil
  | fields (m : frozen.Map)
  | scalar (v : Value)

/-- The test `x != nil` on an interface value. -/
def Any.isNil : Any → Bool
  | .nil => true
  | _ => false

/-- The type assertion `x.(frozen.Map)`. -/
def Any.assertMap : Any → Except Panic frozen.Map
  | .fields m => .ok m
  | _ => .error .typeAssertion

/-- The map type `logrus.Fields`. -/
abbrev Fields := List (String × Any)

/-- The map index `data[key]`, which is nil for an absent key. -/
def Fields.get (data : Fields) (key : String) : Any :=
  match data.find? (fun kv => kv.1 == key) with
  | some kv => kv.2
  | none => Any.nil

/-- A `logrus.Entry`, as far as the formatters read it. -/
structure Entry where
  Time : Time
  Level : Level
  Message : String
  Data : Fields

/-- A Go `error` value, by its message. -/
abbrev Error := String

/-- What a `logrus.Formatter` returns: the byte slice (`none` for a nil slice) and the
error (`none` for a nil error). -/
abbrev FormatResult := Option String × Option Error

/-! ## `standardLogger.go`: the formatters -/

/-- The constant `keyFields`. -/
def keyFields : String := "_fields"

/-- The function `getFormattedField`: `key=value` for each entry in iteration order, joined
by single spaces. -/
def getFormattedField (fields : frozen.Map) : String :=
  if fields.Count = 0 then ""
  else
    match fields.Range with
    | [] => ""
    | (k, v) :: rest =>
      let formattedFields := "" ++ (k.format ++ "=" ++ v.format)
      rest.foldl (fun b kv => b ++ (" " ++ kv.1.format ++ "=" ++ kv.2.format)) formattedFields

/-- Lines 29-32 of `standardFormat.Format`: what the conditional writes to the builder,
the field block and its trailing space, or nothing. -/
def standardFormat.fieldBlock (entry : Entry) : Except Panic String :=
  if (Fields.get entry.Data keyFields).isNil then .ok ""
  else do
    let m ← (Fields.get entry.Data keyFields).assertMap
    if m.Count ≠ 0 then do
      let m ← (Fields.get entry.Data keyFields).assertMap
      pure (getFormattedField m ++ " ")
    else pure ""

/-- The method `standardFormat.Format`. -/
def standardFormat.Format (entry : Entry) : Except Panic FormatResult := do
  let message := ""
  let message := message ++ entry.Time.FormatRFC3339Nano
  let message := message ++ " "
  let block ← standardFormat.fieldBlock entry
  let message := message ++ block
  let message := message ++ ToUpper (Level.String entry.Level)
  let message := message ++ " "
  let message := if entry.Message ≠ "" then (message ++ entry.Message) ++ " " else message
  let message := message ++ "\n"
  pure (some message, none)

/-! ## `standardLogger.go`: the JSON formatter -/

/-- A Go `map[string]T`: a list of bindings with pairwise distinct keys (kept so by
`GoMap.set`, the only way the code adds one). -/
abbrev GoMap (α : Type) := List (String × α)

/-- The assignment `m[k] = v`: overwrite the binding of `k`, or add one. -/
def GoMap.set {α : Type} (m : GoMap α) (k : String) (v : α) : GoMap α :=
  match m with
  | [] => [(k, v)]
  | (k', v') :: rest => if k' = k then (k, v) :: rest else (k', v') :: GoMap.set rest k v

/-- The lookup `v, ok := m[k]`. -/
def GoMap.get? {α : Type} (m : GoMap α) (k : String) : Option α :=
  match m with
  | [] => none
  | (k', v') :: rest => if k' = k then some v' else GoMap.get? rest k

/-- The keys bound in a Go map. -/
def GoMap.keys {α : Type} (m : GoMap α) : List String := m.map Prod.fst

/-- The values stored in the top-level map `jsonFile`: a string, or the nested map built
from the FieldSet, which holds the field values unchanged. -/
inductive JSONValue where
  | str (s : String)
  | object (fields : GoMap Value)
  deriving DecidableEq, Repr

/-- Line 55 of `jsonFormat.Format`, the loop body `fields[i.Key().(string)] = i.Value()`. -/
def jsonFormat.addField (fields : GoMap Value) (kv : Value × Value) :
    Except Panic (GoMap Value) := do
  let k ← kv.1.assertString
  pure (fields.set k kv.2)

/-- Lines 53-56 of `jsonFormat.Format`: the loop that copies the FieldSet into a fresh
`map[string]interface{}`, asserting every key to be a string. -/
def jsonFormat.fieldsObject (m : frozen.Map) : Except Panic (GoMap Value) :=
  m.Range.foldlM jsonFormat.addField []

/-- Lines 48-58 of `jsonFormat.Format`: the map `jsonFile` as it stands when it is handed
to `json.Marshal`. -/
def jsonFormat.jsonFile (entry : Entry) : Except Panic (GoMap JSONValue) := do
  let jsonFile : GoMap JSONValue := []
  let jsonFile := jsonFile.set "timestamp" (JSONValue.str entry.Time.FormatRFC3339Nano)
  let jsonFile := jsonFile.set "message" (JSONValue.str entry.Message)
  let jsonFile := jsonFile.set "level" (JSONValue.str (ToUpper (Level.String entry.Level)))
  if (Fields.get entry.Data keyFields).isNil then pure jsonFile
  else do
    let m ← (Fields.get entry.Data keyFields).assertMap
    if m.Count ≠ 0 then do
      let m ← (Fields.get entry.Data keyFields).assertMap
      let fields ← jsonFormat.fieldsObject m
      pure (jsonFile.set "fields" (JSONValue.object fields))
    else pure jsonFile

/-- The method `jsonFormat.Format`. The library function `json.Marshal` is the parameter
`Marshal`, returning Go's pair of a byte slice and an error. -/
def jsonFormat.Format (Marshal : GoMap JSONValue → Option String × Option Error)
    (entry : Entry) : Except Panic FormatResult := do
  let jsonFile ← jsonFormat.jsonFile entry
  let (data, err) := Marshal jsonFile
  if err ≠ none then pure (none, err)
  else pure (some (data.getD "" ++ "\n"), err)

/-- The FieldSet an entry carries under `keyFields`, if it carries one. -/
def Entry.fieldSet (entry : Entry) : Option frozen.Map :=
  match Fields.get entry.Data keyFields with
  | .fields m => some m
  | _ => none

/-- The field count of an entry: that of its FieldSet, and zero when it carries none. -/
def Entry.fieldCount (entry : Entry) : Nat :=
  match entry.fieldSet with
  | some m => m.Count
  | none => 0

/-- Whether a value is a Go string. -/
def Value.isString : Value → Bool
  | .str _ => true
  | _ => false

/-- Whether every key of a map is a Go string. -/
def frozen.Map.stringKeys (m : frozen.Map) : Bool := m.Keys.all Value.isString

/-- A stand-in for `json.Marshal` used to evaluate the formatter: it renders the
top-level strings and the field values of type string, integer and boolean, and fails on
a field value of any other type, as `json.Marshal` fails on a channel or a function.
(No escaping and no key sorting: it is an example argument, not a model of the encoder.) -/
def sampleMarshal (obj : GoMap JSONValue) : Option String × Option Error :=
  let encValue : Value → Option String := fun v =>
    match v with
    | .str s => some ("\"" ++ s ++ "\"")
    | .int n => some (formatInt n)
    | .int32 n => some (formatInt n)
    | .bool b => some (if b then "true" else "false")
    | .other _ => none
  let encFields : GoMap Value → Option (List String) := fun fs =>
    fs.mapM (fun kv => (encValue kv.2).map (fun s => "\"" ++ kv.1 ++ "\":" ++ s))
  let encTop : String × JSONValue → Option String := fun kv =>
    match kv.2 with
    | .str s => some ("\"" ++ kv.1 ++ "\":\"" ++ s ++ "\"")
    | .object fs => (encFields fs).map
        (fun parts => "\"" ++ kv.1 ++ "\":\x7b" ++ ",".intercalate parts ++ "\x7d")
  match obj.mapM encTop with
  | some parts => (some ("\x7b" ++ ",".intercalate parts ++ "\x7d"), none)
  | none => (none, some "json: unsupported type")

/-! ## `standardLogger.go`: the logger -/

/-- An `io.Writer` a logger writes to. -/
inductive Writer where
  | stderr
  | stream (id : Nat)
  deriving DecidableEq, Repr

/-- The `logrus.Formatter` installed in a logger: the default `&logrus.TextFormatter{}` of
`logrus.New`, `&standardFormat{}` or `&jsonFormat{}`. -/
inductive Formatter where
  | logrusText
  | standard
  | json
  deriving DecidableEq, Repr

/-- A `logrus.Logger` object, as far as the standard logger touches it. -/
structure logrus.Logger where
  Out : Writer
  Formatter : Formatter
  Level : Level
  deriving DecidableEq, Repr

/-- A pointer: the index of an object in its heap region. -/
abbrev Ptr := Nat

/-- The struct `standardLogger`. -/
structure standardLogger where
  internal : Ptr
  fields : frozen.Map

/-- The heap: the `logrus.Logger` objects and the `standardLogger` objects, each
addressed by its index. -/
structure Heap where
  loggers : List logrus.Logger
  standardLoggers : List standardLogger

/-- The empty heap. -/
def Heap.empty : Heap := { loggers := [], standardLoggers := [] }

/-- Read the `logrus.Logger` at a pointer. -/
def Heap.readLogger (h : Heap) (p : Ptr) : Except Panic logrus.Logger :=
  match h.loggers[p]? with
  | some l => .ok l
  | none => .error .nilDereference

/-- Read the `standardLogger` at a pointer. -/
def Heap.readStandardLogger (h : Heap) (p : Ptr) : Except Panic standardLogger :=
  match h.standardLoggers[p]? with
  | some l => .ok l
  | none => .error .nilDereference

/-- Write through a `*logrus.Logger`. -/
def Heap.modifyLogger (h : Heap) (p : Ptr) (f : logrus.Logger → logrus.Logger) :
    Except Panic Heap := do
  let l ← h.readLogger p
  pure { h with loggers := h.loggers.set p (f l) }

/-- Write through a `*standardLogger`. -/
def Heap.modifyStandardLogger (h : Heap) (p : Ptr) (f : Log.standardLogger → Log.standardLogger) :
    Except Panic Heap := do
  let l ← h.readStandardLogger p
  pure { h with standardLoggers := h.standardLoggers.set p (f l) }

/-- The constructor `logrus.New()`: a fresh logger writing to stderr with the default text
formatter at level info. -/
def logrus.New (h : Heap) : Heap × Ptr :=
  ({ h with loggers := h.loggers ++
      [{ Out := Writer.stderr, Formatter := Formatter.logrusText, Level := InfoLevel }] },
    h.loggers.length)

/-- The method `logger.SetFormatter(f)`. -/
def logrus.Logger.SetFormatter (h : Heap) (logger : Ptr) (f : Log.Formatter) : Except Panic Heap :=
  h.modifyLogger logger (fun l => { l with Formatter := f })

/-- The method `logger.SetLevel(level)`. -/
def logrus.Logger.SetLevel (h : Heap) (logger : Ptr) (level : Log.Level) : Except Panic Heap :=
  h.modifyLogger logger (fun l => { l with Level := level })

/-- The method `logger.SetOutput(w)`. -/
def logrus.Logger.SetOutput (h : Heap) (logger : Ptr) (w : Writer) : Except Panic Heap :=
  h.modifyLogger logger (fun l => { l with Out := w })

/-- The function `NewStandardLogger`. -/
def NewStandardLogger (h : Heap) : Except Panic (Heap × Ptr) := do
  let (h, logger) := logrus.New h
  let h ← logrus.Logger.SetFormatter h logger Formatter.standard
  let h ← logrus.Logger.SetLevel h logger DebugLevel
  let h ← logrus.Logger.SetOutput h logger Writer.stderr
  pure ({ h with standardLoggers := h.standardLoggers ++
      [{ internal := logger, fields := frozen.NewMap }] },
    h.standardLoggers.length)

/-- The method `standardLogger.PutFields`. -/
def standardLogger.PutFields (h : Heap) (sl : Ptr) (fields : frozen.Map) :
    Except Panic (Heap × Ptr) := do
  let h ← h.modifyStandardLogger sl (fun l => { l with fields := fields })
  pure (h, sl)

/-- The method `standardLogger.setFormatter`. The constant `jsonFormatter` is declared
outside `standardLogger.go` and is a parameter. -/
def standardLogger.setFormatter (jsonFormatter : Int) (h : Heap) (sl : Ptr)
    (formatterType : Int) : Except Panic Heap := do
  let l ← h.readStandardLogger sl
  if formatterType = jsonFormatter then
    logrus.Logger.SetFormatter h l.internal Formatter.json
  else
    logrus.Logger.SetFormatter h l.internal Formatter.standard

/-- The body of the loop of `standardLogger.SetConfig`: the switch on `i.Key().(int)`.
The constants `formatter` and `jsonFormatter` are declared outside `standardLogger.go`
and are parameters. -/
def standardLogger.applyConfig (formatter jsonFormatter : Int) (sl : Ptr) (h : Heap)
    (kv : Value × Value) : Except Panic Heap := do
  let key ← kv.1.assertInt
  if key = formatter then do
    let v ← kv.2.assertInt
    standardLogger.setFormatter jsonFormatter h sl v
  else
    throw Panic.unknownConfiguration

/-- The method `standardLogger.SetConfig`. -/
def standardLogger.SetConfig (formatter jsonFormatter : Int) (h : Heap) (sl : Ptr)
    (configs : frozen.Map) : Except Panic (Heap × Ptr) := do
  let h ← configs.Range.foldlM (standardLogger.applyConfig formatter jsonFormatter sl) h
  pure (h, sl)

/-- The method `standardLogger.getCopiedInternalLogger`. -/
def standardLogger.getCopiedInternalLogger (h : Heap) (sl : Ptr) : Except Panic (Heap × Ptr) := do
  let (h, logger) := logrus.New h
  let s ← h.readStandardLogger sl
  let h ← logrus.Logger.SetFormatter h logger (← h.readLogger s.internal).Formatter
  let s ← h.readStandardLogger sl
  let h ← logrus.Logger.SetLevel h logger (← h.readLogger s.internal).Level
  let s ← h.readStandardLogger sl
  let h ← logrus.Logger.SetOutput h logger (← h.readLogger s.internal).Out
  pure (h, logger)

/-- The method `standardLogger.Copy`. -/
def standardLogger.Copy (h : Heap) (sl : Ptr) : Except Panic (Heap × Ptr) := do
  let (h, logger) ← standardLogger.getCopiedInternalLogger h sl
  let s ← h.readStandardLogger sl
  pure ({ h with standardLoggers := h.standardLoggers ++
      [{ internal := logger, fields := s.fields }] },
    h.standardLoggers.length)

/-- The formatter installed in the logger at `sl`, if `sl` addresses a logger. -/
def Heap.formatterOf (h : Heap) (sl : Ptr) : Option Formatter := do
  let s ← h.standardLoggers[sl]?
  let l ← h.loggers[s.internal]?
  pure l.Formatter

/-- The FieldSet held by the logger at `sl`, if `sl` addresses a logger. -/
def Heap.fieldsOf (h : Heap) (sl : Ptr) : Option frozen.Map :=
  (h.standardLoggers[sl]?).map (fun s => s.fields)

/-- A pointer addresses a live logger: a `standardLogger` whose `internal` addresses a
`logrus.Logger`. -/
def Heap.live (h : Heap) (sl : Ptr) : Prop :=
  ∃ s l, h.standardLoggers[sl]? = some s ∧ h.loggers[s.internal]? = some l

/-- Whether a binding of an option mapping is one `SetConfig` accepts: the key is the
`int` `formatter` and the value is an `int`. -/
def isFormatterOption (formatter : Int) (kv : Value × Value) : Bool :=
  match kv with
  | (Value.int k, Value.int _) => k == formatter
  | _ => false

/-- Whether a value has the dynamic type `int`. -/
def Value.isInt : Value → Bool
  | .int _ => true
  | _ => false

/-- A map with the single binding `k ↦ v`, `frozen.Map{}.With(k, v)`. -/
def frozen.Map.single (k v : Value) : frozen.Map :=
  ⟨[(k, v)], by simp⟩

/-- Whether the JSON formatter can build its object for an entry: the entry carries no
value under `keyFields`, or a FieldSet all of whose keys are strings. -/
def Entry.stringKeyed (entry : Entry) : Bool :=
  match Fields.get entry.Data keyFields with
  | .nil => true
  | .fields m => m.stringKeys
  | .scalar _ => false

/-! ## `standardLogger.go`: the logging calls -/

/-- What a logging call takes from outside the logger: the clock and the library
functions that are not modelled. -/
structure Runtime where
  /-- The instant `time.Now()` returns during the call. -/
  Now : Time
  /-- The function `json.Marshal`, returning Go's pair of a byte slice and an error. -/
  Marshal : GoMap JSONValue → Option String × Option Error
  /-- The function `fmt.Sprintf`. -/
  Sprintf : String → List Value → String
  /-- The method `Format` of the default `logrus.TextFormatter`. -/
  TextFormatter : Entry → FormatResult

/-- The loop of `fmt.Sprint`: every operand in its `%v` rendering, with a space between
two operands when neither is a string (`other` values are taken to be of a non-string
kind). -/
def doPrint (buf : String) (argNum : Nat) (prevString : Bool) : List Value → String
  | [] => buf
  | arg :: rest =>
    let isString := arg.isString
    let buf := if argNum > 0 && !isString && !prevString then buf ++ " " else buf
    doPrint (buf ++ arg.format) (argNum + 1) isString rest

/-- The function `fmt.Sprint`. -/
def Sprint (a : List Value) : String := doPrint "" 0 false a

/-- A `*logrus.Entry` as `WithFields` returns it, before it is logged: the logger it
belongs to and its data. -/
structure LoggerEntry where
  Logger : Ptr
  Data : Fields

/-- The method `logger.WithFields(fields)` on a fresh entry: the entry data are the given
fields. -/
def logrus.Logger.WithFields (logger : Ptr) (fields : Fields) : LoggerEntry :=
  { Logger := logger, Data := fields }

/-- The method `logger.IsLevelEnabled(level)`: the threshold is at least `level`. -/
def logrus.Logger.IsLevelEnabled (l : logrus.Logger) (level : Log.Level) : Bool :=
  decide (l.Level ≥ level)

/-- The call `entry.Logger.Formatter.Format(entry)`, by the formatter installed. -/
def Formatter.Format (rt : Runtime) : Formatter → Entry → Except Panic FormatResult
  | .standard, entry => standardFormat.Format entry
  | .json, entry => jsonFormat.Format rt.Marshal entry
  | .logrusText, entry => pure (rt.TextFormatter entry)

/-- A write: the writer and the bytes handed to it in one `Write` call. -/
abbrev Write := Writer × String

/-- The method `entry.write()` of logrus: format the entry and hand the bytes to the
output of the logger in one write; when the formatter returns an error, write a notice
to stderr instead. (Writers do not fail.) -/
def logrus.Entry.write (rt : Runtime) (l : logrus.Logger) (entry : Entry) :
    Except Panic (List Write) := do
  let (serialized, err) ← Formatter.Format rt l.Formatter entry
  match err with
  | some e => pure [(Writer.stderr, "Failed to obtain reader, " ++ e ++ "\n")]
  | none => pure [(l.Out, serialized.getD "")]

/-- The method `entry.log(level, msg)` of logrus, for a logger without hooks: stamp the
entry with the time, the level and the message, write it, and panic at `PanicLevel`. -/
def logrus.Entry.log (rt : Runtime) (h : Heap) (entry : LoggerEntry) (level : Log.Level)
    (msg : String) : Except Panic (List Write) := do
  let l ← h.readLogger entry.Logger
  let out ← logrus.Entry.write rt l
    { Time := rt.Now, Level := level, Message := msg, Data := entry.Data }
  if level ≤ PanicLevel then throw Panic.entryPanic else pure out

/-- The method `entry.Log(level, args...)` of logrus. -/
def logrus.Entry.Log (rt : Runtime) (h : Heap) (entry : LoggerEntry) (level : Log.Level)
    (args : List Value) : Except Panic (List Write) := do
  let l ← h.readLogger entry.Logger
  if l.IsLevelEnabled level then logrus.Entry.log rt h entry level (Sprint args)
  else pure []

/-- The method `entry.Logf(level, format, args...)` of logrus. -/
def logrus.Entry.Logf (rt : Runtime) (h : Heap) (entry : LoggerEntry) (level : Log.Level)
    (format : String) (args : List Value) : Except Panic (List Write) := do
  let l ← h.readLogger entry.Logger
  if l.IsLevelEnabled level then
    logrus.Entry.Log rt h entry level [Value.str (rt.Sprintf format args)]
  else pure []

/-- The method `standardLogger.setInfo`. -/
def standardLogger.setInfo (h : Heap) (sl : Ptr) : Except Panic LoggerEntry := do
  let s ← h.readStandardLogger sl
  pure (logrus.Logger.WithFields s.internal [(keyFields, Any.fields s.fields)])

/-- The method `standardLogger.Debug`. The result is the list of writes of the call. -/
def standardLogger.Debug (rt : Runtime) (h : Heap) (sl : Ptr) (args : List Value) :
    Except Panic (List Write) := do
  let entry ← standardLogger.setInfo h sl
  logrus.Entry.Log rt h entry DebugLevel args

/-- The method `standardLogger.Debugf`. -/
def standardLogger.Debugf (rt : Runtime) (h : Heap) (sl : Ptr) (format : String)
    (args : List Value) : Except Panic (List Write) := do
  let entry ← standardLogger.setInfo h sl
  logrus.Entry.Logf rt h entry DebugLevel format args

/-- The method `standardLogger.Info`. -/
def standardLogger.Info (rt : Runtime) (h : Heap) (sl : Ptr) (args : List Value) :
    Except Panic (List Write) := do
  let entry ← standardLogger.setInfo h sl
  logrus.Entry.Log rt h entry InfoLevel args

/-- The method `standardLogger.Infof`. -/
def standardLogger.Infof (rt : Runtime) (h : Heap) (sl : Ptr) (format : String)
    (args : List Value) : Except Panic (List Write) := do
  let entry ← standardLogger.setInfo h sl
  logrus.Entry.Logf rt h entry InfoLevel format args

/-! ## Loggers a program can reach -/

/-- The heaps a program reaches from the empty heap by calls of `NewStandardLogger`,
`PutFields`, `SetConfig` and `Copy` that return. -/
inductive Reachable (formatter jsonFormatter : Int) : Heap → Prop where
  | empty : Reachable formatter jsonFormatter Heap.empty
  | newStandardLogger {h h2 : Heap} {p : Ptr} :
      Reachable formatter jsonFormatter h → NewStandardLogger h = .ok (h2, p) →
      Reachable formatter jsonFormatter h2
  | putFields {h h2 : Heap} {sl p : Ptr} {f : frozen.Map} :
      Reachable formatter jsonFormatter h → standardLogger.PutFields h sl f = .ok (h2, p) →
      Reachable formatter jsonFormatter h2
  | setConfig {h h2 : Heap} {sl p : Ptr} {configs : frozen.Map} :
      Reachable formatter jsonFormatter h →
      standardLogger.SetConfig formatter jsonFormatter h sl configs = .ok (h2, p) →
      Reachable formatter jsonFormatter h2
  | copy {h h2 : Heap} {sl p : Ptr} :
      Reachable formatter jsonFormatter h → standardLogger.Copy h sl = .ok (h2, p) →
      Reachable formatter jsonFormatter h2

/-- The invariant of reachable heaps: the `internal` pointer of every `standardLogger`
addresses a `logrus.Logger`, and every `logrus.Logger` writes to stderr at the threshold
`DebugLevel` through one of the two formatters of the package. -/
def Heap.wellFormed (h : Heap) : Prop :=
  (∀ s ∈ h.standardLoggers, s.internal < h.loggers.length)
  ∧ (∀ l ∈ h.loggers, l.Out = Writer.stderr ∧ l.Level = DebugLevel
      ∧ (l.Formatter = Formatter.standard ∨ l.Formatter = Formatter.json))

/-! ## Auxiliary definitions for the statements -/

/-- The number of newline characters in a string. -/
def newlines (s : String) : Nat := s.data.count '\n'

/-- The three bindings every object starts from. -/
def jsonFormat.base (entry : Entry) : GoMap JSONValue :=
  [("timestamp", JSONValue.str entry.Time.FormatRFC3339Nano),
   ("message", JSONValue.str entry.Message),
   ("level", JSONValue.str (ToUpper (Level.String entry.Level)))]

/-- Lines 60-63 of `jsonFormat.Format`: what it returns once `json.Marshal` has returned
the pair `r`. -/
def jsonFormat.afterMarshal (r : Option String × Option Error) : FormatResult :=
  if r.2 ≠ none then (none, r.2) else (some (r.1.getD "" ++ "\n"), r.2)

/-- The object `jsonFormat.Format` serialises for an entry is `obj`: whatever function
stands for `json.Marshal`, `Format` returns what lines 60-63 make of `Marshal obj`. -/
def jsonFormat.serialises (entry : Entry) (obj : GoMap JSONValue) : Prop :=
  ∀ Marshal : GoMap JSONValue → Option String × Option Error,
    jsonFormat.Format Marshal entry = .ok (jsonFormat.afterMarshal (Marshal obj))

/-- The heap in which the `logrus.Logger` at `p`, read as `l`, holds the formatter `f`. -/
def Heap.withFormatter (h : Heap) (p : Ptr) (l : logrus.Logger) (f : Formatter) : Heap :=
  { h with loggers := h.loggers.set p { l with Formatter := f } }

/-- The heap after allocating a `logrus.Logger` `l` and a `standardLogger` that points to
it and holds the FieldSet `f`. -/
def Heap.alloc (h : Heap) (l : logrus.Logger) (f : frozen.Map) : Heap :=
  { loggers := h.loggers ++ [l],
    standardLoggers := h.standardLoggers ++ [{ internal := h.loggers.length, fields := f }] }

/-- The heap in which the `standardLogger` at `p`, read as `s`, holds the FieldSet `f`. -/
def Heap.withFields (h : Heap) (p : Ptr) (s : standardLogger) (f : frozen.Map) : Heap :=
  { h with standardLoggers := h.standardLoggers.set p { s with fields := f } }

/-- The segment `key=value` that `getFormattedField` writes for one entry of a FieldSet. -/
def segment (kv : Value × Value) : String := kv.1.format ++ "=" ++ kv.2.format

/-! ## Sample inputs -/

/-- An entry with the given time, level and message and the FieldSet `f` under
`keyFields`, as `setInfo` builds it. -/
def entryWith (t : Time) (l : Level) (m : String) (f : frozen.Map) : Entry :=
  { Time := t, Level := l, Message := m, Data := [(keyFields, Any.fields f)] }

/-- A sample instant: 2020-03-04 05:06:07.5 UTC. -/
def sampleTime : Time :=
  { Year := 2020, Month := 3, Day := 4, Hour := 5, Minute := 6, Second := 7,
    Nanosecond := 500000000, Offset := 0 }

/-- A stand-in for `fmt.Sprintf` used to evaluate the logging calls: the operands in
their `%v` rendering for the format `%s`, and the format itself otherwise. (It is an
example argument, not a model of `fmt`.) -/
def sampleSprintf (format : String) (args : List Value) : String :=
  if format = "%s" then String.join (args.map Value.format) else format

/-- A sample runtime: the clock reads `sampleTime`. -/
def sampleRuntime : Runtime :=
  { Now := sampleTime, Marshal := sampleMarshal, Sprintf := sampleSprintf,
    TextFormatter := fun entry => (some (entry.Message ++ "\n"), none) }

/-- The heap after `NewStandardLogger` on the empty heap: one logger, at pointer 0. -/
def sampleHeap : Heap :=
  { loggers := [{ Out := Writer.stderr, Formatter := Formatter.standard, Level := DebugLevel }],
    standardLoggers := [{ internal := 0, fields := frozen.NewMap }] }

/-- An option mapping with the formatter key 0 bound to the string `"json"`. -/
def stringValueConfig : frozen.Map := frozen.Map.single (Value.int 0) (Value.str "json")

/-- An option mapping with the formatter key 0 bound to the JSON selector 1 and the
unknown key 7 bound to 0. -/
def unknownKeyConfig : frozen.Map :=
  ⟨[(Value.int 0, Value.int 1), (Value.int 7, Value.int 0)], by decide⟩

/-- The FieldSet of the package test: `numberVal ↦ 1`, `byteVal ↦ 'k'` (the rune 107) and
`stringVal ↦ "this is a sentence"`, iterated in the order byteVal, numberVal, stringVal. -/
def testFields : frozen.Map :=
  ⟨[(Value.str "byteVal", Value.int32 107), (Value.str "numberVal", Value.int 1),
    (Value.str "stringVal", Value.str "this is a sentence")], by decide⟩

/-- The FieldSet with the single field `a ↦ "1 b=2"`. -/
def mergedFields : frozen.Map := frozen.Map.single (Value.str "a") (Value.str "1 b=2")

/-- The FieldSet with the two fields `a ↦ "1"` and `b ↦ "2"`, iterated in that order. -/
def splitFields : frozen.Map :=
  ⟨[(Value.str "a", Value.str "1"), (Value.str "b", Value.str "2")], by decide⟩

/-- The FieldSet with the single field `a ↦ "x INFO y"`. -/
def levelInValueFields : frozen.Map := frozen.Map.single (Value.str "a") (Value.str "x INFO y")

/-- The FieldSet with the single field `a ↦ "x"`. -/
def plainFields : frozen.Map := frozen.Map.single (Value.str "a") (Value.str "x")

/-- An option mapping with the formatter key 0 bound to the rune `'k'`, an `int32`. -/
def runeValueConfig : frozen.Map := frozen.Map.single (Value.int 0) (Value.int32 107)

/-- An option mapping with the JSON selection first and then the string key `"x"`. -/
def stringKeyConfig : frozen.Map :=
  ⟨[(Value.int 0, Value.int 1), (Value.str "x", Value.int 0)], by decide⟩

/-- An option mapping with the formatter key 0 bound to the string `"yaml"`. -/
def yamlConfig : frozen.Map := frozen.Map.single (Value.int 0) (Value.str "yaml")

/-- A sample FieldSet whose only key is the integer 1. -/
def intKeyFields : frozen.Map := frozen.Map.single (Value.int 1) (Value.str "x")

/-- A sample FieldSet with two fields, `a ↦ -3` and `b ↦ "x y"`. -/
def sampleFields : frozen.Map :=
  ⟨[(Value.str "a", Value.int (-3)), (Value.str "b", Value.str "x y")], by decide⟩

/-! ## Theorems: the text formatter -/

theorem fieldSet_eq_some {entry : Entry} {f : frozen.Map} (h : entry.fieldSet = some f) :
    Fields.get entry.Data keyFields = Any.fields f := by
  unfold Entry.fieldSet at h
  split at h
  · rename_i m hm
    rw [hm]
    simpa using h
  · cases h

theorem fieldBlock_of_fieldSet {entry : Entry} {f : frozen.Map} (h : entry.fieldSet = some f) :
    standardFormat.fieldBlock entry
      = .ok (if f.Count ≠ 0 then getFormattedField f ++ " " else "") := by
  unfold standardFormat.fieldBlock
  rw [fieldSet_eq_some h]
  by_cases hc : f.Count = 0
  · simp [Any.isNil, Any.assertMap, hc, bind, Except.bind, pure, Except.pure]
  · simp [Any.isNil, Any.assertMap, hc, bind, Except.bind, pure, Except.pure]

theorem Format_of_fieldSet {entry : Entry} {f : frozen.Map} (hf : entry.fieldSet = some f) :
    standardFormat.Format entry
      = .ok (some (entry.Time.FormatRFC3339Nano ++ " "
          ++ (if f.Count ≠ 0 then getFormattedField f ++ " " else "")
          ++ ToUpper (Level.String entry.Level) ++ " "
          ++ (if entry.Message ≠ "" then entry.Message ++ " " else "")
          ++ "\n"), none) := by
  unfold standardFormat.Format
  rw [fieldBlock_of_fieldSet hf]
  by_cases hm : entry.Message = ""
  · simp [hm, bind, Except.bind, pure, Except.pure]
  · simp [hm, bind, Except.bind, pure, Except.pure, String.append_assoc]

/-- C1: for every entry carrying a FieldSet `f`, `standardFormat.Format` returns, with a nil
error, exactly the timestamp in RFC3339Nano, a space, the field block followed by a space
when the field count is nonzero, the upper-cased level name, a space, the message followed
by a space when the message is not empty, and a newline. -/
theorem standardFormat_Format_exact (entry : Entry) (f : frozen.Map)
    (hf : entry.fieldSet = some f) :
    standardFormat.Format entry
      = .ok (some (entry.Time.FormatRFC3339Nano ++ " "
          ++ (if f.Count ≠ 0 then getFormattedField f ++ " " else "")
          ++ ToUpper (Level.String entry.Level) ++ " "
          ++ (if entry.Message ≠ "" then entry.Message ++ " " else "")
          ++ "\n"), none) :=
  Format_of_fieldSet hf

theorem standardFormat_Format_exact_witness :
    (entryWith sampleTime DebugLevel "hi" sampleFields).fieldSet = some sampleFields
    ∧ standardFormat.Format (entryWith sampleTime DebugLevel "hi" sampleFields)
      = .ok (some ("2020-03-04T05:06:07.5Z" ++ " "
          ++ (if sampleFields.Count ≠ 0 then "a=-3 b=x y" ++ " " else "")
          ++ "DEBUG" ++ " "
          ++ (if "hi" ≠ "" then "hi" ++ " " else "")
          ++ "\n"), none) :=
  ⟨rfl, standardFormat_Format_exact (entryWith sampleTime DebugLevel "hi" sampleFields)
    sampleFields rfl⟩

/-- C3: for every entry whose FieldSet is empty and whose message is not empty,
`standardFormat.Format` returns exactly the timestamp, a space, the upper-cased level name,
a space, the message, one trailing space and one newline, with no field block. -/
theorem standardFormat_Format_no_fields (entry : Entry) (f : frozen.Map)
    (hf : entry.fieldSet = some f) (h0 : f.Count = 0) (hm : entry.Message ≠ "") :
    standardFormat.Format entry
      = .ok (some (entry.Time.FormatRFC3339Nano ++ " "
          ++ ToUpper (Level.String entry.Level) ++ " " ++ entry.Message ++ " \n"), none) := by
  rw [Format_of_fieldSet hf]
  have h1 : (" \n" : String) = " " ++ "\n" := rfl
  simp [h0, hm, h1, String.append_assoc]

theorem standardFormat_Format_no_fields_witness :
    (entryWith sampleTime InfoLevel "hi" frozen.NewMap).fieldSet = some frozen.NewMap
    ∧ frozen.NewMap.Count = 0 ∧ "hi" ≠ ""
    ∧ standardFormat.Format (entryWith sampleTime InfoLevel "hi" frozen.NewMap)
      = .ok (some "2020-03-04T05:06:07.5Z INFO hi \n", none) :=
  ⟨rfl, rfl, by decide,
    standardFormat_Format_no_fields (entryWith sampleTime InfoLevel "hi" frozen.NewMap)
      frozen.NewMap rfl rfl (by decide)⟩

/-! ### Newlines in the text line -/

theorem newlines_append (a b : String) : newlines (a ++ b) = newlines a + newlines b := by
  simp [newlines, String.data_append, List.count_append]

theorem newlines_eq_zero {s : String} (h : '\n' ∉ s.data) : newlines s = 0 := by
  simpa [newlines, List.count_eq_zero] using h

theorem digitChar_ne_newline (d : Nat) : Nat.digitChar d ≠ '\n' := by
  by_cases h : d < 16
  · interval_cases d <;> decide
  · have hstar : Nat.digitChar d = '*' := by
      unfold Nat.digitChar
      repeat (rw [if_neg (by omega)])
    rw [hstar]
    decide

theorem toDigitsCore_no_newline (fuel : Nat) :
    ∀ (n : Nat) (acc : List Char), '\n' ∉ acc → '\n' ∉ Nat.toDigitsCore 10 fuel n acc := by
  induction fuel with
  | zero => intro n acc h; simpa [Nat.toDigitsCore] using h
  | succ fuel ih =>
    intro n acc h
    have hd : '\n' ∉ Nat.digitChar (n % 10) :: acc := by
      simp only [List.mem_cons, not_or]
      exact ⟨fun e => digitChar_ne_newline _ e.symm, h⟩
    simp only [Nat.toDigitsCore]
    split
    · exact hd
    · exact ih _ _ hd

theorem repr_no_newline (n : Nat) : '\n' ∉ (Nat.repr n).data := by
  simp only [Nat.repr, Nat.toDigits, List.asString]
  exact toDigitsCore_no_newline _ _ _ (by simp)

theorem appendInt_no_newline (b : String) (x : Int) (w : Nat) (hb : '\n' ∉ b.data) :
    '\n' ∉ (appendInt b x w).data := by
  have hr := repr_no_newline x.natAbs
  unfold appendInt
  by_cases hx : x < 0
  · simp [hx, String.data_append, hb, hr, List.mem_replicate]
  · simp [hx, String.data_append, hb, hr, List.mem_replicate]

theorem formatNano_no_newline (b : String) (n : Nat) (hb : '\n' ∉ b.data) :
    '\n' ∉ (formatNano b n).data := by
  have hbuf := appendInt_no_newline "" (Int.ofNat (n % 1000000000)) 9 (by simp)
  unfold formatNano
  simp only []
  split
  · exact hb
  · simp only [String.data_append, List.mem_append, not_or, List.mem_reverse]
    refine ⟨⟨hb, by decide⟩, fun hmem => hbuf ?_⟩
    exact List.mem_reverse.mp ((List.dropWhile_sublist _).subset hmem)

theorem formatZone_no_newline (b : String) (offset : Int) (hb : '\n' ∉ b.data) :
    '\n' ∉ (formatZone b offset).data := by
  unfold formatZone
  simp only []
  split
  · simp [String.data_append, hb]
  · apply appendInt_no_newline
    have hsign : '\n' ∉ (if Int.tdiv offset 60 < 0 then b ++ "-" else b ++ "+").data := by
      split <;> simp [String.data_append, hb]
    have h1 := appendInt_no_newline _ (Int.ofNat ((Int.tdiv offset 60).natAbs / 60)) 2 hsign
    simp only [String.data_append, List.mem_append, not_or]
    exact ⟨h1, by decide⟩

theorem FormatRFC3339Nano_no_newline (t : Time) : '\n' ∉ t.FormatRFC3339Nano.data := by
  have sep : ∀ (b sp : String), '\n' ∉ b.data → '\n' ∉ sp.data → '\n' ∉ (b ++ sp).data := by
    intro b sp h1 h2
    simp [String.data_append, h1, h2]
  unfold Time.FormatRFC3339Nano
  simp only []
  apply formatZone_no_newline
  apply formatNano_no_newline
  apply appendInt_no_newline
  refine sep _ ":" ?_ (by decide)
  apply appendInt_no_newline
  refine sep _ ":" ?_ (by decide)
  apply appendInt_no_newline
  refine sep _ "T" ?_ (by decide)
  apply appendInt_no_newline
  refine sep _ "-" ?_ (by decide)
  apply appendInt_no_newline
  refine sep _ "-" ?_ (by decide)
  apply appendInt_no_newline
  simp

theorem levelName_no_newline (l : Level) : '\n' ∉ (ToUpper (Level.String l)).data := by
  unfold Level.String
  split <;> decide

theorem newlines_Format_line (ts block lvl msg : String) (hts : newlines ts = 0)
    (hlvl : newlines lvl = 0) :
    newlines (ts ++ " " ++ block ++ lvl ++ " " ++ msg ++ "\n")
      = 1 + newlines block + newlines msg := by
  have hsp : newlines " " = 0 := by decide
  have hnl : newlines "\n" = 1 := by decide
  simp only [newlines_append, hts, hlvl, hsp, hnl]
  omega

theorem last_append_newline (s : String) : (s ++ "\n").data.getLast? = some '\n' := by
  have h : ("\n" : String).data = ['\n'] := rfl
  rw [String.data_append, h, List.getLast?_concat]

/-- The statement of C2 fails: with the message `"a\nb"` and no fields the text line
holds two newline characters, so it is not true that every output of
`standardFormat.Format` contains exactly one newline. -/
theorem standardFormat_Format_two_newlines :
    ¬ (∀ (entry : Entry) (out : String), standardFormat.Format entry = .ok (some out, none) →
        newlines out = 1 ∧ out.data.getLast? = some '\n') := by
  intro h
  have h2 := (h (entryWith sampleTime InfoLevel "a\nb" frozen.NewMap)
    "2020-03-04T05:06:07.5Z INFO a\nb \n" rfl).1
  revert h2
  decide

/-- C2 (amended): for every entry carrying a FieldSet `f`, `standardFormat.Format` returns
a line whose last character is a newline, and the number of newline characters in the
line is one plus those of the message plus those of the rendered field block; so the line
contains exactly one newline if and only if neither the message nor the rendered fields
contain one. -/
theorem standardFormat_Format_newlines (entry : Entry) (f : frozen.Map)
    (hf : entry.fieldSet = some f) :
    ∃ out, standardFormat.Format entry = .ok (some out, none)
      ∧ out.data.getLast? = some '\n'
      ∧ newlines out = 1 + newlines (getFormattedField f) + newlines entry.Message
      ∧ (newlines out = 1 ↔
          newlines (getFormattedField f) = 0 ∧ newlines entry.Message = 0) := by
  refine ⟨_, Format_of_fieldSet hf, last_append_newline _, ?_⟩
  · have hts := newlines_eq_zero (FormatRFC3339Nano_no_newline entry.Time)
    have hlvl := newlines_eq_zero (levelName_no_newline entry.Level)
    have hcount := newlines_Format_line entry.Time.FormatRFC3339Nano
      (if f.Count ≠ 0 then getFormattedField f ++ " " else "")
      (ToUpper (Level.String entry.Level))
      (if entry.Message ≠ "" then entry.Message ++ " " else "") hts hlvl
    have hsp : newlines " " = 0 := by decide
    have hblock : newlines (if f.Count ≠ 0 then getFormattedField f ++ " " else "")
        = newlines (getFormattedField f) := by
      by_cases hc : f.Count = 0
      · simp [hc, getFormattedField]
      · simp [hc, newlines_append, hsp]
    have hmsg : newlines (if entry.Message ≠ "" then entry.Message ++ " " else "")
        = newlines entry.Message := by
      by_cases hm : entry.Message = ""
      · simp [hm]
      · simp [hm, newlines_append, hsp]
    rw [hblock, hmsg] at hcount
    refine ⟨hcount, ?_⟩
    rw [hcount]
    omega

theorem standardFormat_Format_newlines_witness :
    (entryWith sampleTime InfoLevel "a\nb" sampleFields).fieldSet = some sampleFields
    ∧ ∃ out, standardFormat.Format (entryWith sampleTime InfoLevel "a\nb" sampleFields)
        = .ok (some out, none)
      ∧ out.data.getLast? = some '\n'
      ∧ newlines out = 1 + newlines (getFormattedField sampleFields) + newlines "a\nb"
      ∧ (newlines out = 1 ↔
          newlines (getFormattedField sampleFields) = 0 ∧ newlines "a\nb" = 0) :=
  ⟨rfl, standardFormat_Format_newlines (entryWith sampleTime InfoLevel "a\nb" sampleFields)
    sampleFields rfl⟩

/-! ## Theorems: the JSON formatter -/

theorem GoMap.get?_set_self {α : Type} (m : GoMap α) (k : String) (v : α) :
    (m.set k v).get? k = some v := by
  induction m with
  | nil => simp [GoMap.set, GoMap.get?]
  | cons hd tl ih =>
    obtain ⟨k', v'⟩ := hd
    by_cases hk : k' = k
    · simp [GoMap.set, GoMap.get?, hk]
    · simp [GoMap.set, GoMap.get?, hk, ih]

theorem GoMap.get?_set_ne {α : Type} (m : GoMap α) (k k0 : String) (v : α) (hne : k ≠ k0) :
    (m.set k v).get? k0 = m.get? k0 := by
  induction m with
  | nil => simp [GoMap.set, GoMap.get?, hne]
  | cons hd tl ih =>
    obtain ⟨k', v'⟩ := hd
    by_cases hk : k' = k
    · subst hk
      simp [GoMap.set, GoMap.get?, hne]
    · by_cases hk0 : k' = k0
      · simp only [GoMap.set, hk, if_false]
        simp [GoMap.get?, hk0]
      · simp only [GoMap.set, hk, if_false]
        simp [GoMap.get?, hk0, ih]

theorem GoMap.keys_set {α : Type} (m : GoMap α) (k k0 : String) (v : α) :
    k0 ∈ (m.set k v).keys ↔ k0 = k ∨ k0 ∈ m.keys := by
  induction m with
  | nil => simp [GoMap.set, GoMap.keys]
  | cons hd tl ih =>
    obtain ⟨k', v'⟩ := hd
    by_cases hk : k' = k
    · subst hk
      simp [GoMap.set, GoMap.keys]
    · simp only [GoMap.keys] at ih
      simp only [GoMap.set, GoMap.keys, hk, if_false, List.map_cons, List.mem_cons, ih]
      tauto

theorem GoMap.set_of_not_mem {α : Type} (m : GoMap α) (k : String) (v : α)
    (h : k ∉ m.keys) : m.set k v = m ++ [(k, v)] := by
  induction m with
  | nil => simp [GoMap.set]
  | cons hd tl ih =>
    obtain ⟨k', v'⟩ := hd
    simp only [GoMap.keys, List.map_cons, List.mem_cons, not_or] at h
    have hk : ¬ k' = k := fun e => h.1 e.symm
    simp only [GoMap.set, hk, if_false, List.cons_append]
    rw [ih (by simpa [GoMap.keys] using h.2)]

theorem jsonFile_cases (entry : Entry) :
    jsonFormat.jsonFile entry =
      match Fields.get entry.Data keyFields with
      | .nil => .ok (jsonFormat.base entry)
      | .scalar _ => .error Panic.typeAssertion
      | .fields m =>
        if m.Count = 0 then .ok (jsonFormat.base entry)
        else match jsonFormat.fieldsObject m with
          | .ok fo => .ok (jsonFormat.base entry ++ [("fields", JSONValue.object fo)])
          | .error p => .error p := by
  unfold jsonFormat.jsonFile
  cases hd : Fields.get entry.Data keyFields with
  | nil => simp [Any.isNil, GoMap.set, jsonFormat.base, pure, Except.pure]
  | scalar v => simp [Any.isNil, Any.assertMap, bind, Except.bind]
  | fields m =>
    by_cases hc : m.Count = 0
    · simp [Any.isNil, Any.assertMap, hc, bind, Except.bind, GoMap.set, jsonFormat.base,
        pure, Except.pure]
    · cases hfo : jsonFormat.fieldsObject m with
      | error p => simp [Any.isNil, Any.assertMap, hc, bind, Except.bind, hfo]
      | ok fo =>
        simp [Any.isNil, Any.assertMap, hc, bind, Except.bind, GoMap.set, jsonFormat.base,
          pure, Except.pure, hfo]

theorem Value.eq_str_of_isString {v : Value} (h : v.isString = true) : ∃ s, v = Value.str s := by
  cases v <;> simp [Value.isString] at h
  exact ⟨_, rfl⟩

theorem fieldsObject_fold (l : List (Value × Value)) :
    ∀ (acc : GoMap Value), (∀ kv ∈ l, kv.1.isString = true) → (l.map Prod.fst).Nodup →
      (∀ k ∈ acc.keys, Value.str k ∉ l.map Prod.fst) →
      ∃ fo : GoMap Value,
        l.foldlM jsonFormat.addField acc = Except.ok (acc ++ fo)
        ∧ fo.map (fun kv => (Value.str kv.1, kv.2)) = l := by
  induction l with
  | nil =>
    intro acc _ _ _
    exact ⟨[], by simp [pure, Except.pure], rfl⟩
  | cons hd tl ih =>
    intro acc hs hnd hdisj
    obtain ⟨k0, v0⟩ := hd
    obtain ⟨s0, rfl⟩ := Value.eq_str_of_isString (hs (k0, v0) (List.mem_cons_self _ _))
    have hnot : s0 ∉ acc.keys := fun hmem => hdisj s0 hmem (by simp)
    simp only [List.map_cons, List.nodup_cons] at hnd
    have hdisj2 : ∀ k ∈ GoMap.keys (acc ++ [(s0, v0)]), Value.str k ∉ tl.map Prod.fst := by
      intro k hk
      simp only [GoMap.keys, List.map_append, List.map_cons, List.map_nil, List.mem_append,
        List.mem_singleton] at hk
      rcases hk with hk | hk
      · intro hmem
        exact hdisj k (by simpa [GoMap.keys] using hk) (List.mem_cons_of_mem _ hmem)
      · subst hk
        exact hnd.1
    obtain ⟨fo, hfo, hmap⟩ := ih (acc ++ [(s0, v0)])
      (fun kv hkv => hs kv (List.mem_cons_of_mem _ hkv)) hnd.2 hdisj2
    refine ⟨(s0, v0) :: fo, ?_, by simp [hmap]⟩
    have hstep : jsonFormat.addField acc (Value.str s0, v0) = .ok (acc ++ [(s0, v0)]) := by
      simp [jsonFormat.addField, Value.assertString, bind, Except.bind, pure, Except.pure,
        GoMap.set_of_not_mem _ _ _ hnot]
    rw [List.foldlM_cons, hstep]
    simp only [bind, Except.bind]
    rw [hfo]
    simp

theorem fieldsObject_of_stringKeys (m : frozen.Map) (hs : m.stringKeys = true) :
    ∃ fo, jsonFormat.fieldsObject m = .ok fo
      ∧ fo.map (fun kv => (Value.str kv.1, kv.2)) = m.kvs := by
  have hall : ∀ kv ∈ m.kvs, kv.1.isString = true := by
    intro kv hkv
    simp only [frozen.Map.stringKeys, frozen.Map.Keys, List.all_eq_true, List.mem_map,
      forall_exists_index, and_imp] at hs
    exact hs kv.1 kv hkv rfl
  obtain ⟨fo, hfo, hmap⟩ := fieldsObject_fold m.kvs [] hall m.nodup (by simp [GoMap.keys])
  exact ⟨fo, by simpa [jsonFormat.fieldsObject, frozen.Map.Range] using hfo, hmap⟩

theorem GoMap.get?_eq_find {fo : GoMap Value} (k : String) :
    fo.get? k
      = ((fo.map (fun kv => (Value.str kv.1, kv.2))).find?
          (fun kv => kv.1 == Value.str k)).map Prod.snd := by
  induction fo with
  | nil => simp [GoMap.get?]
  | cons hd tl ih =>
    obtain ⟨k', v'⟩ := hd
    by_cases hk : k' = k
    · simp [GoMap.get?, hk]
    · simp [GoMap.get?, hk, ih, List.find?_cons]

theorem jsonFile_total (entry : Entry) (hs : entry.stringKeyed = true) :
    ∃ obj, jsonFormat.jsonFile entry = .ok obj := by
  rw [jsonFile_cases]
  unfold Entry.stringKeyed at hs
  cases hd : Fields.get entry.Data keyFields with
  | nil => exact ⟨_, rfl⟩
  | scalar v => simp [hd] at hs
  | fields m =>
    simp only [hd] at hs
    by_cases hc : m.Count = 0
    · exact ⟨jsonFormat.base entry, by simp [hc]⟩
    · obtain ⟨fo, hfo, _⟩ := fieldsObject_of_stringKeys m hs
      exact ⟨jsonFormat.base entry ++ [("fields", JSONValue.object fo)], by simp [hc, hfo]⟩

theorem jsonFile_shape {entry : Entry} {obj : GoMap JSONValue}
    (h : jsonFormat.jsonFile entry = .ok obj) :
    (entry.fieldCount = 0 ∧ obj = jsonFormat.base entry)
    ∨ (∃ f fo, entry.fieldSet = some f ∧ 0 < f.Count ∧ jsonFormat.fieldsObject f = .ok fo
        ∧ obj = jsonFormat.base entry ++ [("fields", JSONValue.object fo)]) := by
  rw [jsonFile_cases] at h
  unfold Entry.fieldCount Entry.fieldSet
  cases hd : Fields.get entry.Data keyFields with
  | nil =>
    rw [hd] at h
    simp only [Except.ok.injEq] at h
    exact Or.inl ⟨rfl, h.symm⟩
  | scalar v =>
    rw [hd] at h
    cases h
  | fields m =>
    rw [hd] at h
    by_cases hc : m.Count = 0
    · simp only [hc, if_true, Except.ok.injEq] at h
      exact Or.inl ⟨hc, h.symm⟩
    · simp only [hc, if_false] at h
      cases hfo : jsonFormat.fieldsObject m with
      | error p => rw [hfo] at h; cases h
      | ok fo =>
        rw [hfo] at h
        simp only [Except.ok.injEq] at h
        exact Or.inr ⟨m, fo, rfl, Nat.pos_of_ne_zero hc, hfo, h.symm⟩

theorem fieldCount_of_fieldSet {entry : Entry} {f : frozen.Map} (h : entry.fieldSet = some f) :
    entry.fieldCount = f.Count := by
  simp [Entry.fieldCount, h]

theorem Format_of_jsonFile {entry : Entry} {obj : GoMap JSONValue}
    (h : jsonFormat.jsonFile entry = .ok obj) : jsonFormat.serialises entry obj := by
  intro Marshal
  unfold jsonFormat.Format jsonFormat.afterMarshal
  rw [h]
  by_cases herr : (Marshal obj).2 = none
  · simp [bind, Except.bind, pure, Except.pure, herr]
  · simp [bind, Except.bind, pure, Except.pure, herr]

theorem Format_of_jsonFile_error {entry : Entry} {p : Panic}
    (h : jsonFormat.jsonFile entry = .error p)
    (Marshal : GoMap JSONValue → Option String × Option Error) :
    jsonFormat.Format Marshal entry = .error p := by
  unfold jsonFormat.Format
  rw [h]
  rfl

theorem jsonFile_of_serialises {entry : Entry} {obj : GoMap JSONValue}
    (h : jsonFormat.serialises entry obj) : jsonFormat.jsonFile entry = .ok obj := by
  cases hj : jsonFormat.jsonFile entry with
  | error p =>
    have h1 := h (fun _ => (none, none))
    rw [Format_of_jsonFile_error hj] at h1
    cases h1
  | ok obj0 =>
    have h1 := h (fun o => (some (if o = obj0 then "1" else "0"), none))
    rw [Format_of_jsonFile hj] at h1
    by_cases hobj : obj = obj0
    · rw [hobj]
    · simp [jsonFormat.afterMarshal, hobj] at h1

theorem serialises_unique {entry : Entry} {obj obj2 : GoMap JSONValue}
    (h : jsonFormat.serialises entry obj) (h2 : jsonFormat.serialises entry obj2) :
    obj2 = obj := by
  have e1 := jsonFile_of_serialises h
  have e2 := jsonFile_of_serialises h2
  rw [e1] at e2
  exact (Except.ok.inj e2).symm

theorem addField_fold_error (l : List (Value × Value)) :
    ∀ acc : GoMap Value, (∃ kv ∈ l, kv.1.isString = false) →
      l.foldlM jsonFormat.addField acc = .error Panic.typeAssertion := by
  induction l with
  | nil => intro acc hex; obtain ⟨kv, hkv, _⟩ := hex; cases hkv
  | cons hd tl ih =>
    intro acc hex
    obtain ⟨k, v⟩ := hd
    cases hk : k.isString with
    | false =>
      have hstep : jsonFormat.addField acc (k, v) = .error Panic.typeAssertion := by
        cases k <;> simp [Value.isString] at hk <;>
          simp [jsonFormat.addField, Value.assertString, bind, Except.bind]
      rw [List.foldlM_cons, hstep]
      rfl
    | true =>
      obtain ⟨s0, rfl⟩ := Value.eq_str_of_isString hk
      have hex2 : ∃ kv ∈ tl, kv.1.isString = false := by
        obtain ⟨kv, hmem, hbad⟩ := hex
        rcases List.mem_cons.mp hmem with rfl | hmem2
        · simp [Value.isString] at hbad
        · exact ⟨kv, hmem2, hbad⟩
      have hstep : jsonFormat.addField acc (Value.str s0, v) = .ok (acc.set s0 v) := by
        simp [jsonFormat.addField, Value.assertString, bind, Except.bind, pure, Except.pure]
      rw [List.foldlM_cons, hstep]
      exact ih _ hex2

theorem Format_panics_of_not_stringKeyed (entry : Entry) (hs : entry.stringKeyed = false)
    (Marshal : GoMap JSONValue → Option String × Option Error) :
    jsonFormat.Format Marshal entry = .error Panic.typeAssertion := by
  apply Format_of_jsonFile_error
  rw [jsonFile_cases]
  unfold Entry.stringKeyed at hs
  cases hd : Fields.get entry.Data keyFields with
  | nil => simp [hd] at hs
  | scalar v => rfl
  | fields m =>
    simp only [hd] at hs
    have hex : ∃ kv ∈ m.kvs, kv.1.isString = false := by
      by_contra hno
      have hall : m.stringKeys = true := by
        simp only [frozen.Map.stringKeys, frozen.Map.Keys, List.all_eq_true, List.mem_map,
          forall_exists_index, and_imp]
        intro k kv hkv hk
        cases hstr : kv.1.isString with
        | true => rw [← hk]; exact hstr
        | false => exact absurd ⟨kv, hkv, hstr⟩ hno
      rw [hall] at hs
      cases hs
    have hc : m.Count ≠ 0 := by
      obtain ⟨kv, hkv, _⟩ := hex
      intro h0
      rw [frozen.Map.Count, List.length_eq_zero] at h0
      rw [h0] at hkv
      cases hkv
    have hfo : jsonFormat.fieldsObject m = .error Panic.typeAssertion :=
      addField_fold_error m.kvs [] hex
    simp [hc, hfo]

/-- C4: for every entry, `jsonFormat.Format` either panics before serialising anything
(when a field key is not a string or the value under `keyFields` is not a FieldSet), or
serialises an object, the one it hands to `json.Marshal`; that object has the top-level
key `fields` if and only if the field count of the entry is positive, and when the count
is zero (an empty FieldSet, or none) the key has no binding at all. -/
theorem jsonFormat_fields_key_iff (entry : Entry) :
    (entry.stringKeyed = true → ∃ obj, jsonFormat.serialises entry obj)
    ∧ (entry.stringKeyed = false →
        ∀ Marshal, jsonFormat.Format Marshal entry = .error Panic.typeAssertion)
    ∧ ∀ obj, jsonFormat.serialises entry obj →
        ("fields" ∈ obj.keys ↔ 0 < entry.fieldCount)
        ∧ (entry.fieldCount = 0 → obj.get? "fields" = none) := by
  refine ⟨fun hs => ?_, Format_panics_of_not_stringKeyed entry, ?_⟩
  · obtain ⟨obj, hobj⟩ := jsonFile_total entry hs
    exact ⟨obj, Format_of_jsonFile hobj⟩
  intro obj hser
  have h := jsonFile_of_serialises hser
  rcases jsonFile_shape h with ⟨h0, rfl⟩ | ⟨f, fo, hf, hpos, _, rfl⟩
  · refine ⟨?_, fun _ => by simp [jsonFormat.base, GoMap.get?]⟩
    simp [jsonFormat.base, GoMap.keys, h0]
  · rw [fieldCount_of_fieldSet hf]
    refine ⟨?_, fun h0 => absurd h0 (Nat.pos_iff_ne_zero.mp hpos)⟩
    simp [jsonFormat.base, GoMap.keys, hpos]

theorem jsonFormat_fields_key_iff_witness :
    (entryWith sampleTime InfoLevel "hi" sampleFields).stringKeyed = true
    ∧ (∃ obj, jsonFormat.serialises (entryWith sampleTime InfoLevel "hi" sampleFields) obj)
    ∧ jsonFormat.serialises (entryWith sampleTime InfoLevel "hi" sampleFields)
        (jsonFormat.base (entryWith sampleTime InfoLevel "hi" sampleFields)
          ++ [("fields", JSONValue.object [("a", Value.int (-3)), ("b", Value.str "x y")])])
    ∧ (("fields" ∈ GoMap.keys (jsonFormat.base (entryWith sampleTime InfoLevel "hi" sampleFields)
          ++ [("fields", JSONValue.object [("a", Value.int (-3)), ("b", Value.str "x y")])])
        ↔ 0 < (entryWith sampleTime InfoLevel "hi" sampleFields).fieldCount)
      ∧ ((entryWith sampleTime InfoLevel "hi" sampleFields).fieldCount = 0 →
          GoMap.get? (jsonFormat.base (entryWith sampleTime InfoLevel "hi" sampleFields)
            ++ [("fields", JSONValue.object [("a", Value.int (-3)), ("b", Value.str "x y")])])
            "fields" = none))
    ∧ (entryWith sampleTime InfoLevel "hi" intKeyFields).stringKeyed = false
    ∧ jsonFormat.Format sampleMarshal (entryWith sampleTime InfoLevel "hi" intKeyFields)
        = .error Panic.typeAssertion :=
  ⟨rfl, (jsonFormat_fields_key_iff (entryWith sampleTime InfoLevel "hi" sampleFields)).1 rfl,
   Format_of_jsonFile rfl,
   (jsonFormat_fields_key_iff (entryWith sampleTime InfoLevel "hi" sampleFields)).2.2 _
     (Format_of_jsonFile rfl),
   rfl,
   (jsonFormat_fields_key_iff (entryWith sampleTime InfoLevel "hi" intKeyFields)).2.1 rfl
     sampleMarshal⟩

/-- C5: for every entry with a non-empty FieldSet `f` whose keys are strings,
`jsonFormat.Format` serialises one object, the one it hands to `json.Marshal`, and that
object binds `fields` to a map with exactly the keys of `f` (the same keys in the same
number), each bound to the value `f` holds for it, unchanged. -/
theorem jsonFormat_fields_object (entry : Entry) (f : frozen.Map)
    (hf : entry.fieldSet = some f) (hne : f.Count ≠ 0) (hs : f.stringKeys = true) :
    ∃ obj fo, jsonFormat.serialises entry obj
      ∧ (∀ obj2, jsonFormat.serialises entry obj2 → obj2 = obj)
      ∧ obj.get? "fields" = some (JSONValue.object fo)
      ∧ fo.keys.map Value.str = f.Keys
      ∧ (∀ k, k ∈ fo.keys ↔ Value.str k ∈ f.Keys)
      ∧ (∀ k, fo.get? k = f.Get (Value.str k)) := by
  obtain ⟨fo, hfo, hmap⟩ := fieldsObject_of_stringKeys f hs
  have hkeys : fo.keys.map Value.str = f.Keys := by
    rw [frozen.Map.Keys, ← hmap]
    simp [GoMap.keys]
  have hfile : jsonFormat.jsonFile entry
      = .ok (jsonFormat.base entry ++ [("fields", JSONValue.object fo)]) := by
    rw [jsonFile_cases, fieldSet_eq_some hf]
    simp [hne, hfo]
  refine ⟨jsonFormat.base entry ++ [("fields", JSONValue.object fo)], fo,
    Format_of_jsonFile hfile, fun obj2 h2 => serialises_unique (Format_of_jsonFile hfile) h2,
    ?_, hkeys, ?_, ?_⟩
  · simp [jsonFormat.base, GoMap.get?]
  · intro k
    rw [← hkeys]
    simp
  · intro k
    rw [GoMap.get?_eq_find, hmap]
    rfl

theorem jsonFormat_fields_object_witness :
    (entryWith sampleTime DebugLevel "hi" sampleFields).fieldSet = some sampleFields
    ∧ sampleFields.Count ≠ 0 ∧ sampleFields.stringKeys = true
    ∧ ∃ obj fo, jsonFormat.serialises (entryWith sampleTime DebugLevel "hi" sampleFields) obj
      ∧ (∀ obj2, jsonFormat.serialises (entryWith sampleTime DebugLevel "hi" sampleFields) obj2 →
          obj2 = obj)
      ∧ obj.get? "fields" = some (JSONValue.object fo)
      ∧ fo.keys.map Value.str = sampleFields.Keys
      ∧ (∀ k, k ∈ fo.keys ↔ Value.str k ∈ sampleFields.Keys)
      ∧ (∀ k, fo.get? k = sampleFields.Get (Value.str k)) :=
  ⟨rfl, by decide, rfl,
    jsonFormat_fields_object (entryWith sampleTime DebugLevel "hi" sampleFields) sampleFields
      rfl (by decide) rfl⟩

/-- C6: for every entry, `jsonFormat.Format` either panics before serialising anything
(when a field key is not a string or the value under `keyFields` is not a FieldSet), or
serialises an object, the one it hands to `json.Marshal`; that object binds `timestamp`
to the RFC3339Nano rendering of the entry time, `level` to the upper-cased level name and
`message` to the entry message, and has no key besides these three and `fields`. -/
theorem jsonFormat_top_level_keys (entry : Entry) :
    (entry.stringKeyed = true → ∃ obj, jsonFormat.serialises entry obj)
    ∧ (entry.stringKeyed = false →
        ∀ Marshal, jsonFormat.Format Marshal entry = .error Panic.typeAssertion)
    ∧ ∀ obj, jsonFormat.serialises entry obj →
        obj.get? "timestamp" = some (JSONValue.str entry.Time.FormatRFC3339Nano)
        ∧ obj.get? "level" = some (JSONValue.str (ToUpper (Level.String entry.Level)))
        ∧ obj.get? "message" = some (JSONValue.str entry.Message)
        ∧ ∀ k ∈ obj.keys, k = "timestamp" ∨ k = "level" ∨ k = "message" ∨ k = "fields" := by
  refine ⟨fun hs => ?_, Format_panics_of_not_stringKeyed entry, ?_⟩
  · obtain ⟨obj, hobj⟩ := jsonFile_total entry hs
    exact ⟨obj, Format_of_jsonFile hobj⟩
  intro obj hser
  have h := jsonFile_of_serialises hser
  rcases jsonFile_shape h with ⟨_, rfl⟩ | ⟨f, fo, _, _, _, rfl⟩
  · refine ⟨rfl, rfl, rfl, ?_⟩
    intro k hk
    simp only [jsonFormat.base, GoMap.keys, List.map_cons, List.map_nil, List.mem_cons,
      List.mem_nil_iff, or_false] at hk
    tauto
  · refine ⟨rfl, rfl, rfl, ?_⟩
    intro k hk
    simp only [jsonFormat.base, GoMap.keys, List.map_cons, List.map_nil, List.mem_cons,
      List.mem_nil_iff, or_false, List.cons_append, List.nil_append] at hk
    tauto

theorem jsonFormat_top_level_keys_witness :
    (entryWith sampleTime InfoLevel "hi" frozen.NewMap).stringKeyed = true
    ∧ (∃ obj, jsonFormat.serialises (entryWith sampleTime InfoLevel "hi" frozen.NewMap) obj)
    ∧ jsonFormat.serialises (entryWith sampleTime InfoLevel "hi" frozen.NewMap)
        (jsonFormat.base (entryWith sampleTime InfoLevel "hi" frozen.NewMap))
    ∧ (GoMap.get? (jsonFormat.base (entryWith sampleTime InfoLevel "hi" frozen.NewMap))
          "timestamp" = some (JSONValue.str "2020-03-04T05:06:07.5Z")
      ∧ GoMap.get? (jsonFormat.base (entryWith sampleTime InfoLevel "hi" frozen.NewMap))
          "level" = some (JSONValue.str "INFO")
      ∧ GoMap.get? (jsonFormat.base (entryWith sampleTime InfoLevel "hi" frozen.NewMap))
          "message" = some (JSONValue.str "hi")
      ∧ ∀ k ∈ GoMap.keys (jsonFormat.base (entryWith sampleTime InfoLevel "hi" frozen.NewMap)),
          k = "timestamp" ∨ k = "level" ∨ k = "message" ∨ k = "fields") :=
  ⟨rfl, (jsonFormat_top_level_keys (entryWith sampleTime InfoLevel "hi" frozen.NewMap)).1 rfl,
   Format_of_jsonFile rfl,
   (jsonFormat_top_level_keys (entryWith sampleTime InfoLevel "hi" frozen.NewMap)).2.2 _
     (Format_of_jsonFile rfl)⟩

theorem jsonFormat_Format_sample :
    jsonFormat.Format sampleMarshal (entryWith sampleTime DebugLevel "hi" sampleFields)
      = .ok (some ("\x7b\"timestamp\":\"2020-03-04T05:06:07.5Z\",\"message\":\"hi\","
          ++ "\"level\":\"DEBUG\",\"fields\":\x7b\"a\":-3,\"b\":\"x y\"\x7d\x7d\n"), none) := rfl

/-- The statement of C7 fails: for an entry whose FieldSet has the integer key 1,
`jsonFormat.Format` panics on the type assertion of the key, so it returns neither bytes
ending in a newline nor an error. -/
theorem jsonFormat_Format_panics :
    ¬ (∀ (Marshal : GoMap JSONValue → Option String × Option Error) (entry : Entry),
        (∃ data, jsonFormat.Format Marshal entry = .ok (some (data ++ "\n"), none))
        ∨ (∃ err, jsonFormat.Format Marshal entry = .ok (none, some err))) := by
  intro h
  have hp : jsonFormat.Format sampleMarshal (entryWith sampleTime InfoLevel "hi" intKeyFields)
      = .error Panic.typeAssertion := rfl
  rcases h sampleMarshal (entryWith sampleTime InfoLevel "hi" intKeyFields) with
    ⟨_, hd⟩ | ⟨_, he⟩
  · rw [hp] at hd
    cases hd
  · rw [hp] at he
    cases he

/-- C7 (amended): for every entry whose field keys are all strings (or that carries no
FieldSet), `jsonFormat.Format` builds its object and then either serialisation succeeds
and Format returns the serialised bytes followed by one newline with a nil error, or
serialisation fails and Format returns a nil slice together with that error. -/
theorem jsonFormat_Format_result (Marshal : GoMap JSONValue → Option String × Option Error)
    (entry : Entry) (hs : entry.stringKeyed = true) :
    ∃ obj, jsonFormat.jsonFile entry = .ok obj
      ∧ (((Marshal obj).2 = none
            ∧ jsonFormat.Format Marshal entry
                = .ok (some ((Marshal obj).1.getD "" ++ "\n"), none))
          ∨ (∃ err, (Marshal obj).2 = some err
            ∧ jsonFormat.Format Marshal entry = .ok (none, some err))) := by
  obtain ⟨obj, hobj⟩ := jsonFile_total entry hs
  refine ⟨obj, hobj, ?_⟩
  unfold jsonFormat.Format
  rw [hobj]
  cases herr : (Marshal obj).2 with
  | none =>
    left
    refine ⟨rfl, ?_⟩
    simp [bind, Except.bind, pure, Except.pure, herr]
  | some err =>
    right
    refine ⟨err, rfl, ?_⟩
    simp [bind, Except.bind, pure, Except.pure, herr]

theorem jsonFormat_Format_result_witness :
    (entryWith sampleTime InfoLevel "hi" frozen.NewMap).stringKeyed = true
    ∧ ∃ obj, jsonFormat.jsonFile (entryWith sampleTime InfoLevel "hi" frozen.NewMap) = .ok obj
      ∧ (((sampleMarshal obj).2 = none
            ∧ jsonFormat.Format sampleMarshal (entryWith sampleTime InfoLevel "hi" frozen.NewMap)
                = .ok (some ((sampleMarshal obj).1.getD "" ++ "\n"), none))
          ∨ (∃ err, (sampleMarshal obj).2 = some err
            ∧ jsonFormat.Format sampleMarshal (entryWith sampleTime InfoLevel "hi" frozen.NewMap)
                = .ok (none, some err))) :=
  ⟨rfl, jsonFormat_Format_result sampleMarshal
    (entryWith sampleTime InfoLevel "hi" frozen.NewMap) rfl⟩

/-! ## Theorems: the logger -/

theorem setFormatter_live (jsonFormatter : Int) (h : Heap) (sl : Ptr) (v : Int)
    (s : standardLogger) (l : logrus.Logger)
    (hs : h.standardLoggers[sl]? = some s) (hl : h.loggers[s.internal]? = some l) :
    standardLogger.setFormatter jsonFormatter h sl v
      = .ok (h.withFormatter s.internal l
          (if v = jsonFormatter then Formatter.json else Formatter.standard)) := by
  unfold standardLogger.setFormatter
  by_cases hv : v = jsonFormatter
  · simp [Heap.readStandardLogger, hs, logrus.Logger.SetFormatter, Heap.modifyLogger,
      Heap.readLogger, hl, bind, Except.bind, pure, Except.pure, hv, Heap.withFormatter]
  · simp [Heap.readStandardLogger, hs, logrus.Logger.SetFormatter, Heap.modifyLogger,
      Heap.readLogger, hl, bind, Except.bind, pure, Except.pure, hv, Heap.withFormatter]

theorem formatterOf_withFormatter (h : Heap) (sl : Ptr) (s : standardLogger)
    (l : logrus.Logger) (f : Formatter)
    (hs : h.standardLoggers[sl]? = some s) (hl : h.loggers[s.internal]? = some l) :
    (h.withFormatter s.internal l f).formatterOf sl = some f := by
  have hlt : s.internal < h.loggers.length := by
    by_contra hge
    rw [List.getElem?_eq_none (Nat.le_of_not_lt hge)] at hl
    cases hl
  simp [Heap.formatterOf, Heap.withFormatter, hs, List.getElem?_set, hlt, bind, Option.bind,
    pure]

theorem applyConfig_option (formatter jsonFormatter : Int) (h : Heap) (sl : Ptr) (v : Int)
    (s : standardLogger) (l : logrus.Logger)
    (hs : h.standardLoggers[sl]? = some s) (hl : h.loggers[s.internal]? = some l) :
    standardLogger.applyConfig formatter jsonFormatter sl h (Value.int formatter, Value.int v)
      = .ok (h.withFormatter s.internal l
          (if v = jsonFormatter then Formatter.json else Formatter.standard)) := by
  unfold standardLogger.applyConfig
  simp only [Value.assertInt, bind, Except.bind, if_true]
  exact setFormatter_live jsonFormatter h sl v s l hs hl

theorem SetConfig_single (formatter jsonFormatter : Int) (h : Heap) (sl : Ptr) (v : Int)
    (s : standardLogger) (l : logrus.Logger)
    (hs : h.standardLoggers[sl]? = some s) (hl : h.loggers[s.internal]? = some l) :
    ∃ h2, standardLogger.SetConfig formatter jsonFormatter h sl
        (frozen.Map.single (Value.int formatter) (Value.int v)) = .ok (h2, sl)
      ∧ h2.formatterOf sl
          = some (if v = jsonFormatter then Formatter.json else Formatter.standard)
      ∧ h2.fieldsOf sl = h.fieldsOf sl := by
  refine ⟨_, ?_, formatterOf_withFormatter h sl s l _ hs hl, ?_⟩
  · unfold standardLogger.SetConfig
    simp only [frozen.Map.Range, frozen.Map.single, List.foldlM_cons, List.foldlM_nil]
    rw [applyConfig_option formatter jsonFormatter h sl v s l hs hl]
    rfl
  · simp [Heap.fieldsOf, Heap.withFormatter]

/-- C8: for every live logger, whatever formatter it holds, `SetConfig` with the mapping
from the formatter key to the JSON selector installs the JSON formatter, and with the
mapping from the formatter key to a text selector (any selector other than the JSON one)
installs the text formatter; both calls return the pointer they were called on. -/
theorem SetConfig_formatter (formatter jsonFormatter textFormatter : Int) (h : Heap)
    (sl : Ptr) (hlive : h.live sl) (ht : textFormatter ≠ jsonFormatter) :
    (∃ h2, standardLogger.SetConfig formatter jsonFormatter h sl
        (frozen.Map.single (Value.int formatter) (Value.int jsonFormatter)) = .ok (h2, sl)
      ∧ h2.formatterOf sl = some Formatter.json)
    ∧ (∃ h2, standardLogger.SetConfig formatter jsonFormatter h sl
        (frozen.Map.single (Value.int formatter) (Value.int textFormatter)) = .ok (h2, sl)
      ∧ h2.formatterOf sl = some Formatter.standard) := by
  obtain ⟨s, l, hs, hl⟩ := hlive
  constructor
  · obtain ⟨h2, hcall, hfmt, _⟩ := SetConfig_single formatter jsonFormatter h sl jsonFormatter s l hs hl
    exact ⟨h2, hcall, by simpa using hfmt⟩
  · obtain ⟨h2, hcall, hfmt, _⟩ := SetConfig_single formatter jsonFormatter h sl textFormatter s l hs hl
    exact ⟨h2, hcall, by simpa [ht] using hfmt⟩

theorem NewStandardLogger_empty : NewStandardLogger Heap.empty = .ok (sampleHeap, 0) := rfl

theorem sampleHeap_live : sampleHeap.live 0 :=
  ⟨{ internal := 0, fields := frozen.NewMap },
   { Out := Writer.stderr, Formatter := Formatter.standard, Level := DebugLevel }, rfl, rfl⟩

theorem SetConfig_formatter_witness :
    sampleHeap.live 0 ∧ (0 : Int) ≠ 1
    ∧ (∃ h2, standardLogger.SetConfig 0 1 sampleHeap 0
        (frozen.Map.single (Value.int 0) (Value.int 1)) = .ok (h2, 0)
      ∧ h2.formatterOf 0 = some Formatter.json)
    ∧ (∃ h2, standardLogger.SetConfig 0 1 sampleHeap 0
        (frozen.Map.single (Value.int 0) (Value.int 0)) = .ok (h2, 0)
      ∧ h2.formatterOf 0 = some Formatter.standard) :=
  ⟨sampleHeap_live, by decide,
    SetConfig_formatter 0 1 0 sampleHeap 0 sampleHeap_live (by decide)⟩

/-- C10: for every logger and every FieldSet `f`, `PutFields(f)` returns the pointer it was
called on and leaves the logger holding exactly `f`, whatever it held before, so every key
it then holds is a key of `f`; the formatter is untouched. -/
theorem PutFields_replaces (h : Heap) (sl : Ptr) (s : standardLogger) (f : frozen.Map)
    (hs : h.standardLoggers[sl]? = some s) :
    ∃ h2, standardLogger.PutFields h sl f = .ok (h2, sl)
      ∧ h2.standardLoggers[sl]? = some { s with fields := f }
      ∧ h2.fieldsOf sl = some f
      ∧ (∀ g, h2.fieldsOf sl = some g → ∀ k, k ∈ g.Keys ↔ k ∈ f.Keys)
      ∧ h2.formatterOf sl = h.formatterOf sl := by
  have hlt : sl < h.standardLoggers.length := by
    by_contra hge
    rw [List.getElem?_eq_none (Nat.le_of_not_lt hge)] at hs
    cases hs
  have hget : (h.standardLoggers.set sl { s with fields := f })[sl]?
      = some { s with fields := f } := by
    simp [List.getElem?_set, hlt]
  refine ⟨{ h with standardLoggers := h.standardLoggers.set sl { s with fields := f } },
    ?_, hget, ?_, ?_, ?_⟩
  · simp [standardLogger.PutFields, Heap.modifyStandardLogger, Heap.readStandardLogger, hs,
      bind, Except.bind, pure, Except.pure]
  · simp [Heap.fieldsOf, hget]
  · intro g hg
    simp only [Heap.fieldsOf, hget, Option.map_some', Option.some.injEq] at hg
    subst hg
    intro k
    rfl
  · simp [Heap.formatterOf, hget, hs, bind, Option.bind]

theorem PutFields_replaces_witness :
    sampleHeap.standardLoggers[0]? = some { internal := 0, fields := frozen.NewMap }
    ∧ ∃ h2, standardLogger.PutFields sampleHeap 0 sampleFields = .ok (h2, 0)
      ∧ h2.standardLoggers[0]? = some { internal := 0, fields := sampleFields }
      ∧ h2.fieldsOf 0 = some sampleFields
      ∧ (∀ g, h2.fieldsOf 0 = some g → ∀ k, k ∈ g.Keys ↔ k ∈ sampleFields.Keys)
      ∧ h2.formatterOf 0 = sampleHeap.formatterOf 0 :=
  ⟨rfl, PutFields_replaces sampleHeap 0 { internal := 0, fields := frozen.NewMap }
    sampleFields rfl⟩

theorem live_withFormatter (h : Heap) (sl : Ptr) (s : standardLogger) (l : logrus.Logger)
    (f : Formatter) (hs : h.standardLoggers[sl]? = some s)
    (hl : h.loggers[s.internal]? = some l) : (h.withFormatter s.internal l f).live sl := by
  have hlt : s.internal < h.loggers.length := by
    by_contra hge
    rw [List.getElem?_eq_none (Nat.le_of_not_lt hge)] at hl
    cases hl
  exact ⟨s, { l with Formatter := f }, hs, by simp [Heap.withFormatter, List.getElem?_set, hlt]⟩

theorem isFormatterOption_eq {formatter : Int} {kv : Value × Value}
    (h : isFormatterOption formatter kv = true) :
    ∃ v, kv = (Value.int formatter, Value.int v) := by
  obtain ⟨k, v⟩ := kv
  cases k <;> cases v <;> simp [isFormatterOption] at h
  subst h
  exact ⟨_, rfl⟩

theorem applyConfig_rejects (formatter jsonFormatter : Int) (sl : Ptr) (h : Heap)
    (kv : Value × Value) (hbad : isFormatterOption formatter kv = false) :
    ∃ p, standardLogger.applyConfig formatter jsonFormatter sl h kv = .error p := by
  obtain ⟨k, v⟩ := kv
  cases k with
  | int n =>
    by_cases hn : n = formatter
    · cases v with
      | int m => simp [isFormatterOption, hn] at hbad
      | _ =>
        exact ⟨Panic.typeAssertion, by
          simp [standardLogger.applyConfig, Value.assertInt, bind, Except.bind, hn]⟩
    · exact ⟨Panic.unknownConfiguration, by
        simp [standardLogger.applyConfig, Value.assertInt, bind, Except.bind, hn, throw,
          throwThe, MonadExceptOf.throw]⟩
  | _ =>
    exact ⟨Panic.typeAssertion, by
      simp [standardLogger.applyConfig, Value.assertInt, bind, Except.bind]⟩

theorem applyConfig_unknown (formatter jsonFormatter : Int) (sl : Ptr) (h : Heap)
    (kv : Value × Value) (hint : kv.1.isInt = true) (hne : kv.1 ≠ Value.int formatter) :
    standardLogger.applyConfig formatter jsonFormatter sl h kv
      = .error Panic.unknownConfiguration := by
  obtain ⟨k, v⟩ := kv
  cases k with
  | int n =>
    have hn : ¬ n = formatter := fun e => hne (by rw [e])
    simp [standardLogger.applyConfig, Value.assertInt, bind, Except.bind, hn, throw,
      throwThe, MonadExceptOf.throw]
  | _ => simp [Value.isInt] at hint

theorem foldConfig_accepts (formatter jsonFormatter : Int) (sl : Ptr)
    (l : List (Value × Value)) :
    ∀ h : Heap, h.live sl → (∀ kv ∈ l, isFormatterOption formatter kv = true) →
      ∃ h2, l.foldlM (standardLogger.applyConfig formatter jsonFormatter sl) h = .ok h2
        ∧ h2.live sl := by
  induction l with
  | nil => intro h hlive _; exact ⟨h, rfl, hlive⟩
  | cons kv tl ih =>
    intro h hlive hall
    obtain ⟨v, rfl⟩ := isFormatterOption_eq (hall kv (List.mem_cons_self _ _))
    obtain ⟨s, lg, hs, hl⟩ := hlive
    obtain ⟨h2, hfold, hlive2⟩ := ih _ (live_withFormatter h sl s lg
        (if v = jsonFormatter then Formatter.json else Formatter.standard) hs hl)
      (fun kv hkv => hall kv (List.mem_cons_of_mem _ hkv))
    refine ⟨h2, ?_, hlive2⟩
    rw [List.foldlM_cons, applyConfig_option formatter jsonFormatter h sl v s lg hs hl]
    exact hfold

theorem foldConfig_rejects (formatter jsonFormatter : Int) (sl : Ptr)
    (l : List (Value × Value)) :
    ∀ h : Heap, h.live sl → (∃ kv ∈ l, isFormatterOption formatter kv = false) →
      ∃ p, l.foldlM (standardLogger.applyConfig formatter jsonFormatter sl) h = .error p := by
  induction l with
  | nil => intro h _ hex; obtain ⟨kv, hkv, _⟩ := hex; cases hkv
  | cons kv tl ih =>
    intro h hlive hex
    cases hgood : isFormatterOption formatter kv with
    | false =>
      obtain ⟨p, hp⟩ := applyConfig_rejects formatter jsonFormatter sl h kv hgood
      exact ⟨p, by rw [List.foldlM_cons, hp]; rfl⟩
    | true =>
      obtain ⟨v, rfl⟩ := isFormatterOption_eq hgood
      obtain ⟨s, lg, hs, hl⟩ := hlive
      have hex2 : ∃ kv ∈ tl, isFormatterOption formatter kv = false := by
        obtain ⟨kv2, hmem, hbad⟩ := hex
        rcases List.mem_cons.mp hmem with heq | hmem2
        · subst heq
          rw [hgood] at hbad
          cases hbad
        · exact ⟨kv2, hmem2, hbad⟩
      obtain ⟨p, hp⟩ := ih _ (live_withFormatter h sl s lg
        (if v = jsonFormatter then Formatter.json else Formatter.standard) hs hl) hex2
      refine ⟨p, ?_⟩
      rw [List.foldlM_cons, applyConfig_option formatter jsonFormatter h sl v s lg hs hl]
      exact hp

theorem foldConfig_unknown (formatter jsonFormatter : Int) (sl : Ptr)
    (l : List (Value × Value)) :
    ∀ h : Heap, h.live sl → (∀ kv ∈ l, kv.1.isInt = true ∧ kv.2.isInt = true) →
      (∃ kv ∈ l, kv.1 ≠ Value.int formatter) →
      l.foldlM (standardLogger.applyConfig formatter jsonFormatter sl) h
        = .error Panic.unknownConfiguration := by
  induction l with
  | nil => intro h _ _ hex; obtain ⟨kv, hkv, _⟩ := hex; cases hkv
  | cons kv tl ih =>
    intro h hlive hint hex
    by_cases hk : kv.1 = Value.int formatter
    · obtain ⟨k, v⟩ := kv
      simp only at hk
      subst hk
      have hv := (hint _ (List.mem_cons_self _ _)).2
      cases v with
      | int n =>
        obtain ⟨s, lg, hs, hl⟩ := hlive
        have hex2 : ∃ kv ∈ tl, kv.1 ≠ Value.int formatter := by
          obtain ⟨kv2, hmem, hbad⟩ := hex
          rcases List.mem_cons.mp hmem with heq | hmem2
          · subst heq
            exact absurd rfl hbad
          · exact ⟨kv2, hmem2, hbad⟩
        rw [List.foldlM_cons, applyConfig_option formatter jsonFormatter h sl n s lg hs hl]
        exact ih _ (live_withFormatter h sl s lg
          (if n = jsonFormatter then Formatter.json else Formatter.standard) hs hl)
          (fun kv hkv => hint kv (List.mem_cons_of_mem _ hkv)) hex2
      | _ => simp [Value.isInt] at hv
    · rw [List.foldlM_cons, applyConfig_unknown formatter jsonFormatter sl h kv
        (hint _ (List.mem_cons_self _ _)).1 hk]
      rfl

theorem applyConfig_bad_key (formatter jsonFormatter : Int) (sl : Ptr) (h : Heap)
    (kv : Value × Value) (hkey : kv.1.isInt = false) :
    standardLogger.applyConfig formatter jsonFormatter sl h kv = .error Panic.typeAssertion := by
  obtain ⟨k, v⟩ := kv
  cases k <;> simp [Value.isInt] at hkey <;>
    simp [standardLogger.applyConfig, Value.assertInt, bind, Except.bind]

theorem applyConfig_bad_value (formatter jsonFormatter : Int) (sl : Ptr) (h : Heap)
    (kv : Value × Value) (hkey : kv.1 = Value.int formatter) (hval : kv.2.isInt = false) :
    standardLogger.applyConfig formatter jsonFormatter sl h kv = .error Panic.typeAssertion := by
  obtain ⟨k, v⟩ := kv
  simp only at hkey hval
  subst hkey
  cases v <;> simp [Value.isInt] at hval <;>
    simp [standardLogger.applyConfig, Value.assertInt, bind, Except.bind]

theorem foldConfig_first_bad (formatter jsonFormatter : Int) (sl : Ptr) (p : Panic)
    (kv : Value × Value) (post : List (Value × Value))
    (hbad : ∀ h : Heap, standardLogger.applyConfig formatter jsonFormatter sl h kv = .error p)
    (pre : List (Value × Value)) :
    ∀ h : Heap, h.live sl → (∀ x ∈ pre, isFormatterOption formatter x = true) →
      (pre ++ kv :: post).foldlM (standardLogger.applyConfig formatter jsonFormatter sl) h
        = .error p := by
  induction pre with
  | nil =>
    intro h _ _
    rw [List.nil_append, List.foldlM_cons, hbad h]
    rfl
  | cons x tl ih =>
    intro h hlive hall
    obtain ⟨v, rfl⟩ := isFormatterOption_eq (hall x (List.mem_cons_self _ _))
    obtain ⟨s, lg, hs, hl⟩ := hlive
    rw [List.cons_append, List.foldlM_cons,
      applyConfig_option formatter jsonFormatter h sl v s lg hs hl]
    exact ih _ (live_withFormatter h sl s lg
        (if v = jsonFormatter then Formatter.json else Formatter.standard) hs hl)
      (fun y hy => hall y (List.mem_cons_of_mem _ hy))

theorem SetConfig_first_bad (formatter jsonFormatter : Int) (h : Heap) (sl : Ptr)
    (configs : frozen.Map) (hlive : h.live sl) (p : Panic)
    (pre : List (Value × Value)) (kv : Value × Value) (post : List (Value × Value))
    (hrange : configs.Range = pre ++ kv :: post)
    (hpre : ∀ x ∈ pre, isFormatterOption formatter x = true)
    (hbad : ∀ h : Heap, standardLogger.applyConfig formatter jsonFormatter sl h kv = .error p) :
    standardLogger.SetConfig formatter jsonFormatter h sl configs = .error p := by
  have hfold := foldConfig_first_bad formatter jsonFormatter sl p kv post hbad pre h hlive hpre
  rw [← hrange] at hfold
  simp [standardLogger.SetConfig, hfold, bind, Except.bind]

/-- The statement of C9 fails: in the mapping that binds the formatter key to the string
`"json"` every key is the formatter key, yet `SetConfig` does not return: the assertion
`i.Value().(int)` panics. So returning normally is not equivalent to every key being the
formatter key. -/
theorem SetConfig_string_value_panics :
    ¬ (∀ (formatter jsonFormatter : Int) (h : Heap) (sl : Ptr) (configs : frozen.Map),
        h.live sl →
        ((∃ r, standardLogger.SetConfig formatter jsonFormatter h sl configs = .ok r)
          ↔ ∀ k ∈ configs.Keys, k = Value.int formatter)) := by
  intro hclaim
  have hpanic : standardLogger.SetConfig 0 1 sampleHeap 0 stringValueConfig
      = .error Panic.typeAssertion := rfl
  have hkeys : ∀ k ∈ stringValueConfig.Keys, k = Value.int 0 := by
    intro k hk
    simpa [stringValueConfig, frozen.Map.single, frozen.Map.Keys] using hk
  obtain ⟨r, hr⟩ := (hclaim 0 1 sampleHeap 0 stringValueConfig sampleHeap_live).mpr hkeys
  rw [hpanic] at hr
  cases hr

/-- C9 (amended): for every live logger and every option mapping, `SetConfig` panics
instead of returning whenever the mapping has a key other than the formatter key; the
panic is `unknown configuration` when the keys and values of the mapping are of type
`int`. In general the panic is decided by the first binding, in iteration order, that is
not the `int` formatter key bound to an `int`: a failed type assertion when its key is not
an `int`, or when its key is the formatter key and its value is not an `int`, and
`unknown configuration` when its key is an `int` other than the formatter key. And
`SetConfig` returns normally, with the pointer it was called on, if and only if every key
is the `int` formatter key and every value is an `int`. -/
theorem SetConfig_unknown_key (formatter jsonFormatter : Int) (h : Heap) (sl : Ptr)
    (configs : frozen.Map) (hlive : h.live sl) :
    ((∃ kv ∈ configs.Range, kv.1 ≠ Value.int formatter) →
      ∃ p, standardLogger.SetConfig formatter jsonFormatter h sl configs = .error p)
    ∧ ((∀ kv ∈ configs.Range, kv.1.isInt = true ∧ kv.2.isInt = true) →
        (∃ kv ∈ configs.Range, kv.1 ≠ Value.int formatter) →
        standardLogger.SetConfig formatter jsonFormatter h sl configs
          = .error Panic.unknownConfiguration)
    ∧ ((∃ h2, standardLogger.SetConfig formatter jsonFormatter h sl configs = .ok (h2, sl))
        ↔ ∀ kv ∈ configs.Range, isFormatterOption formatter kv = true)
    ∧ (∀ pre kv post, configs.Range = pre ++ kv :: post →
        (∀ x ∈ pre, isFormatterOption formatter x = true) →
        ((kv.1.isInt = false ∨ (kv.1 = Value.int formatter ∧ kv.2.isInt = false)) →
          standardLogger.SetConfig formatter jsonFormatter h sl configs
            = .error Panic.typeAssertion)
        ∧ ((kv.1.isInt = true ∧ kv.1 ≠ Value.int formatter) →
          standardLogger.SetConfig formatter jsonFormatter h sl configs
            = .error Panic.unknownConfiguration)) := by
  have hrej : (∃ kv ∈ configs.Range, isFormatterOption formatter kv = false) →
      ∃ p, standardLogger.SetConfig formatter jsonFormatter h sl configs = .error p := by
    intro hex
    obtain ⟨p, hp⟩ := foldConfig_rejects formatter jsonFormatter sl configs.Range h hlive hex
    exact ⟨p, by simp [standardLogger.SetConfig, hp, bind, Except.bind]⟩
  refine ⟨?_, ?_, ⟨?_, ?_⟩, ?_⟩
  · rintro ⟨kv, hmem, hne⟩
    refine hrej ⟨kv, hmem, ?_⟩
    cases hgood : isFormatterOption formatter kv with
    | false => rfl
    | true =>
      obtain ⟨v, rfl⟩ := isFormatterOption_eq hgood
      exact absurd rfl hne
  · intro hint hex
    simp [standardLogger.SetConfig, bind, Except.bind,
      foldConfig_unknown formatter jsonFormatter sl configs.Range h hlive hint hex]
  · rintro ⟨h2, hok⟩
    by_contra hnot
    have hex : ∃ kv ∈ configs.Range, isFormatterOption formatter kv = false := by
      by_contra hno
      apply hnot
      intro kv hkv
      cases hgood : isFormatterOption formatter kv with
      | true => rfl
      | false => exact absurd ⟨kv, hkv, hgood⟩ hno
    obtain ⟨p, hp⟩ := hrej hex
    rw [hp] at hok
    cases hok
  · intro hall
    obtain ⟨h2, hfold, _⟩ :=
      foldConfig_accepts formatter jsonFormatter sl configs.Range h hlive hall
    exact ⟨h2, by simp [standardLogger.SetConfig, hfold, bind, Except.bind, pure, Except.pure]⟩
  · intro pre kv post hrange hpre
    constructor
    · intro hcase
      refine SetConfig_first_bad formatter jsonFormatter h sl configs hlive _ pre kv post
        hrange hpre (fun h0 => ?_)
      rcases hcase with hkey | ⟨hkey, hval⟩
      · exact applyConfig_bad_key formatter jsonFormatter sl h0 kv hkey
      · exact applyConfig_bad_value formatter jsonFormatter sl h0 kv hkey hval
    · rintro ⟨hint, hne⟩
      exact SetConfig_first_bad formatter jsonFormatter h sl configs hlive _ pre kv post
        hrange hpre (fun h0 => applyConfig_unknown formatter jsonFormatter sl h0 kv hint hne)

theorem SetConfig_unknown_key_witness :
    sampleHeap.live 0
    ∧ (∃ kv ∈ unknownKeyConfig.Range, kv.1 ≠ Value.int 0)
    ∧ (∀ kv ∈ unknownKeyConfig.Range, kv.1.isInt = true ∧ kv.2.isInt = true)
    ∧ (∃ p, standardLogger.SetConfig 0 1 sampleHeap 0 unknownKeyConfig = .error p)
    ∧ standardLogger.SetConfig 0 1 sampleHeap 0 unknownKeyConfig
        = .error Panic.unknownConfiguration
    ∧ standardLogger.SetConfig 0 1 sampleHeap 0 stringKeyConfig = .error Panic.typeAssertion
    ∧ standardLogger.SetConfig 0 1 sampleHeap 0 stringValueConfig = .error Panic.typeAssertion
    ∧ standardLogger.SetConfig 0 1 sampleHeap 0 runeValueConfig = .error Panic.typeAssertion :=
  ⟨sampleHeap_live, by decide, by decide,
    (SetConfig_unknown_key 0 1 sampleHeap 0 unknownKeyConfig sampleHeap_live).1 (by decide),
    (SetConfig_unknown_key 0 1 sampleHeap 0 unknownKeyConfig sampleHeap_live).2.1
      (by decide) (by decide),
    ((SetConfig_unknown_key 0 1 sampleHeap 0 stringKeyConfig sampleHeap_live).2.2.2
      [(Value.int 0, Value.int 1)] (Value.str "x", Value.int 0) [] rfl (by decide)).1
      (Or.inl rfl),
    ((SetConfig_unknown_key 0 1 sampleHeap 0 stringValueConfig sampleHeap_live).2.2.2
      [] (Value.int 0, Value.str "json") [] rfl (by decide)).1 (Or.inr ⟨rfl, rfl⟩),
    ((SetConfig_unknown_key 0 1 sampleHeap 0 runeValueConfig sampleHeap_live).2.2.2
      [] (Value.int 0, Value.int32 107) [] rfl (by decide)).1 (Or.inr ⟨rfl, rfl⟩)⟩

/-! ## Theorems: construction and copying -/

theorem lt_of_getElem?_eq_some {α : Type} {l : List α} {i : Nat} {a : α}
    (h : l[i]? = some a) : i < l.length := by
  by_contra hge
  rw [List.getElem?_eq_none (Nat.le_of_not_lt hge)] at h
  cases h

theorem NewStandardLogger_eq (h : Heap) :
    NewStandardLogger h
      = .ok (h.alloc { Out := Writer.stderr, Formatter := Formatter.standard, Level := DebugLevel }
          frozen.NewMap, h.standardLoggers.length) := by
  simp [NewStandardLogger, logrus.New, logrus.Logger.SetFormatter, logrus.Logger.SetLevel,
    logrus.Logger.SetOutput, Heap.modifyLogger, Heap.readLogger, Heap.alloc, bind, Except.bind,
    pure, Except.pure]

theorem Copy_eq (h : Heap) (sl : Ptr) (s : standardLogger) (l : logrus.Logger)
    (hs : h.standardLoggers[sl]? = some s) (hl : h.loggers[s.internal]? = some l) :
    standardLogger.Copy h sl = .ok (h.alloc l s.fields, h.standardLoggers.length) := by
  have hlt := lt_of_getElem?_eq_some hl
  have hl2 : ∀ x : logrus.Logger, (h.loggers ++ [x])[s.internal]? = some l := by
    intro x
    rw [List.getElem?_append_left hlt]
    exact hl
  simp [standardLogger.Copy, standardLogger.getCopiedInternalLogger, logrus.New,
    logrus.Logger.SetFormatter, logrus.Logger.SetLevel, logrus.Logger.SetOutput,
    Heap.modifyLogger, Heap.readLogger, Heap.readStandardLogger, Heap.alloc, bind, Except.bind,
    pure, Except.pure, hs, hl2]

theorem Copy_dangling (h : Heap) (sl : Ptr) (hs : h.standardLoggers[sl]? = none) :
    standardLogger.Copy h sl = .error Panic.nilDereference := by
  simp [standardLogger.Copy, standardLogger.getCopiedInternalLogger, logrus.New,
    Heap.readStandardLogger, bind, Except.bind, hs]

theorem alloc_standardLoggers_old (h : Heap) (l : logrus.Logger) (f : frozen.Map) (p : Ptr)
    (s : standardLogger) (hs : h.standardLoggers[p]? = some s) :
    (h.alloc l f).standardLoggers[p]? = some s := by
  simp only [Heap.alloc]
  rw [List.getElem?_append_left (lt_of_getElem?_eq_some hs)]
  exact hs

theorem alloc_loggers_old (h : Heap) (l : logrus.Logger) (f : frozen.Map) (p : Ptr)
    (l0 : logrus.Logger) (hl : h.loggers[p]? = some l0) :
    (h.alloc l f).loggers[p]? = some l0 := by
  simp only [Heap.alloc]
  rw [List.getElem?_append_left (lt_of_getElem?_eq_some hl)]
  exact hl

theorem alloc_standardLoggers_new (h : Heap) (l : logrus.Logger) (f : frozen.Map) :
    (h.alloc l f).standardLoggers[h.standardLoggers.length]?
      = some { internal := h.loggers.length, fields := f } := by
  simp [Heap.alloc]

theorem alloc_loggers_new (h : Heap) (l : logrus.Logger) (f : frozen.Map) :
    (h.alloc l f).loggers[h.loggers.length]? = some l := by
  simp [Heap.alloc]

/-- C11: for every live logger `L`, `Copy` returns a new logger `C` (another pointer) whose
`internal` pointer differs from that of `L`; right after the call `L` is unchanged, `C`
holds the FieldSet of `L`, and the `logrus.Logger` of `C` has the formatter, the level
threshold and the output of that of `L`. -/
theorem Copy_distinct_handle (h : Heap) (sl : Ptr) (s : standardLogger) (l : logrus.Logger)
    (hs : h.standardLoggers[sl]? = some s) (hl : h.loggers[s.internal]? = some l) :
    ∃ h2 c sc lc, standardLogger.Copy h sl = .ok (h2, c)
      ∧ c ≠ sl
      ∧ h2.standardLoggers[c]? = some sc
      ∧ h2.loggers[sc.internal]? = some lc
      ∧ sc.internal ≠ s.internal
      ∧ h2.standardLoggers[sl]? = some s
      ∧ h2.loggers[s.internal]? = some l
      ∧ sc.fields = s.fields
      ∧ lc.Formatter = l.Formatter ∧ lc.Level = l.Level ∧ lc.Out = l.Out := by
  refine ⟨h.alloc l s.fields, h.standardLoggers.length,
    { internal := h.loggers.length, fields := s.fields }, l, Copy_eq h sl s l hs hl, ?_,
    alloc_standardLoggers_new h l s.fields, alloc_loggers_new h l s.fields, ?_,
    alloc_standardLoggers_old h l s.fields sl s hs,
    alloc_loggers_old h l s.fields s.internal l hl, rfl, rfl, rfl, rfl⟩
  · exact Nat.ne_of_gt (lt_of_getElem?_eq_some hs)
  · exact Nat.ne_of_gt (lt_of_getElem?_eq_some hl)

theorem Copy_distinct_handle_witness :
    sampleHeap.standardLoggers[0]? = some { internal := 0, fields := frozen.NewMap }
    ∧ sampleHeap.loggers[0]?
        = some { Out := Writer.stderr, Formatter := Formatter.standard, Level := DebugLevel }
    ∧ ∃ h2 c sc lc, standardLogger.Copy sampleHeap 0 = .ok (h2, c)
      ∧ c ≠ 0
      ∧ h2.standardLoggers[c]? = some sc
      ∧ h2.loggers[sc.internal]? = some lc
      ∧ sc.internal ≠ 0
      ∧ h2.standardLoggers[0]? = some { internal := 0, fields := frozen.NewMap }
      ∧ h2.loggers[0]?
          = some { Out := Writer.stderr, Formatter := Formatter.standard, Level := DebugLevel }
      ∧ sc.fields = frozen.NewMap
      ∧ lc.Formatter = Formatter.standard ∧ lc.Level = DebugLevel ∧ lc.Out = Writer.stderr :=
  ⟨rfl, rfl, Copy_distinct_handle sampleHeap 0 { internal := 0, fields := frozen.NewMap }
    { Out := Writer.stderr, Formatter := Formatter.standard, Level := DebugLevel } rfl rfl⟩

/-! ### Frame lemmas -/

theorem fieldsOf_eq {h : Heap} {sl : Ptr} {s : standardLogger}
    (hs : h.standardLoggers[sl]? = some s) : h.fieldsOf sl = some s.fields := by
  simp [Heap.fieldsOf, hs]

theorem PutFields_eq (h : Heap) (sl : Ptr) (s : standardLogger) (f : frozen.Map)
    (hs : h.standardLoggers[sl]? = some s) :
    standardLogger.PutFields h sl f = .ok (h.withFields sl s f, sl) := by
  simp [standardLogger.PutFields, Heap.modifyStandardLogger, Heap.readStandardLogger, hs,
    Heap.withFields, bind, Except.bind, pure, Except.pure]

theorem PutFields_ok_inv {h h2 : Heap} {sl r : Ptr} {f : frozen.Map}
    (hok : standardLogger.PutFields h sl f = .ok (h2, r)) :
    ∃ s, h.standardLoggers[sl]? = some s ∧ h2 = h.withFields sl s f ∧ r = sl := by
  cases hs : h.standardLoggers[sl]? with
  | none =>
    simp [standardLogger.PutFields, Heap.modifyStandardLogger, Heap.readStandardLogger, hs,
      bind, Except.bind] at hok
  | some s =>
    rw [PutFields_eq h sl s f hs] at hok
    simp only [Except.ok.injEq, Prod.mk.injEq] at hok
    exact ⟨s, rfl, hok.1.symm, hok.2.symm⟩

theorem withFields_standardLoggers_self (h : Heap) (sl : Ptr) (s : standardLogger)
    (f : frozen.Map) (hs : h.standardLoggers[sl]? = some s) :
    (h.withFields sl s f).standardLoggers[sl]? = some { s with fields := f } := by
  simp [Heap.withFields, List.getElem?_set, lt_of_getElem?_eq_some hs]

theorem withFields_standardLoggers_ne (h : Heap) (sl p : Ptr) (s : standardLogger)
    (f : frozen.Map) (hne : p ≠ sl) :
    (h.withFields sl s f).standardLoggers[p]? = h.standardLoggers[p]? := by
  simp only [Heap.withFields]
  rw [List.getElem?_set_ne (Ne.symm hne)]

theorem withFormatter_loggers_ne (h : Heap) (q p : Ptr) (l : logrus.Logger) (fm : Formatter)
    (hne : p ≠ q) : (h.withFormatter q l fm).loggers[p]? = h.loggers[p]? := by
  simp only [Heap.withFormatter]
  rw [List.getElem?_set_ne (Ne.symm hne)]

theorem applyConfig_ok_inv {formatter jsonFormatter : Int} {sl : Ptr} {h h2 : Heap}
    {kv : Value × Value}
    (hok : standardLogger.applyConfig formatter jsonFormatter sl h kv = .ok h2) :
    ∃ s l fm, h.standardLoggers[sl]? = some s ∧ h.loggers[s.internal]? = some l
      ∧ (fm = Formatter.json ∨ fm = Formatter.standard)
      ∧ h2 = h.withFormatter s.internal l fm := by
  cases hgood : isFormatterOption formatter kv with
  | false =>
    obtain ⟨p, hp⟩ := applyConfig_rejects formatter jsonFormatter sl h kv hgood
    rw [hp] at hok
    cases hok
  | true =>
    obtain ⟨v, rfl⟩ := isFormatterOption_eq hgood
    cases hs : h.standardLoggers[sl]? with
    | none =>
      simp [standardLogger.applyConfig, Value.assertInt, standardLogger.setFormatter,
        Heap.readStandardLogger, hs, bind, Except.bind] at hok
    | some s =>
      cases hl : h.loggers[s.internal]? with
      | none =>
        simp [standardLogger.applyConfig, Value.assertInt, standardLogger.setFormatter,
          Heap.readStandardLogger, hs, logrus.Logger.SetFormatter, Heap.modifyLogger,
          Heap.readLogger, hl, bind, Except.bind] at hok
      | some l =>
        rw [applyConfig_option formatter jsonFormatter h sl v s l hs hl] at hok
        simp only [Except.ok.injEq] at hok
        refine ⟨s, l, _, rfl, hl, ?_, hok.symm⟩
        by_cases hv : v = jsonFormatter
        · left; simp [hv]
        · right; simp [hv]

theorem foldConfig_induct (formatter jsonFormatter : Int) (sl : Ptr) (P : Heap → Prop)
    (hstep : ∀ (h : Heap) (s : standardLogger) (l : logrus.Logger) (fm : Formatter),
      P h → h.standardLoggers[sl]? = some s → h.loggers[s.internal]? = some l →
      (fm = Formatter.json ∨ fm = Formatter.standard) → P (h.withFormatter s.internal l fm))
    (kvs : List (Value × Value)) :
    ∀ h h2 : Heap, P h →
      kvs.foldlM (standardLogger.applyConfig formatter jsonFormatter sl) h = .ok h2 → P h2 := by
  induction kvs with
  | nil =>
    intro h h2 hP hok
    simp only [List.foldlM_nil, pure, Except.pure, Except.ok.injEq] at hok
    rw [← hok]
    exact hP
  | cons kv tl ih =>
    intro h h2 hP hok
    rw [List.foldlM_cons] at hok
    cases hstep1 : standardLogger.applyConfig formatter jsonFormatter sl h kv with
    | error p =>
      rw [hstep1] at hok
      cases hok
    | ok h1 =>
      rw [hstep1] at hok
      obtain ⟨s, l, fm, hs, hl, hfm, rfl⟩ := applyConfig_ok_inv hstep1
      exact ih _ h2 (hstep h s l fm hP hs hl hfm) hok

theorem SetConfig_ok_fold {formatter jsonFormatter : Int} {h h2 : Heap} {sl r : Ptr}
    {configs : frozen.Map}
    (hok : standardLogger.SetConfig formatter jsonFormatter h sl configs = .ok (h2, r)) :
    configs.Range.foldlM (standardLogger.applyConfig formatter jsonFormatter sl) h = .ok h2
      ∧ r = sl := by
  unfold standardLogger.SetConfig at hok
  cases hfold : configs.Range.foldlM (standardLogger.applyConfig formatter jsonFormatter sl) h with
  | error p =>
    rw [hfold] at hok
    cases hok
  | ok h1 =>
    rw [hfold] at hok
    simp only [bind, Except.bind, pure, Except.pure, Except.ok.injEq, Prod.mk.injEq] at hok
    exact ⟨by rw [hok.1], hok.2.symm⟩

theorem SetConfig_frame {formatter jsonFormatter : Int} {h h2 : Heap} {t r : Ptr}
    {configs : frozen.Map} {st : standardLogger}
    (hok : standardLogger.SetConfig formatter jsonFormatter h t configs = .ok (h2, r))
    (hst : h.standardLoggers[t]? = some st) :
    h2.standardLoggers = h.standardLoggers
      ∧ ∀ p, p ≠ st.internal → h2.loggers[p]? = h.loggers[p]? := by
  refine foldConfig_induct formatter jsonFormatter t
    (fun h1 => h1.standardLoggers = h.standardLoggers
      ∧ ∀ p, p ≠ st.internal → h1.loggers[p]? = h.loggers[p]?)
    ?_ configs.Range h h2 ⟨rfl, fun _ _ => rfl⟩ (SetConfig_ok_fold hok).1
  intro h1 s l fm hP hs _ _
  have hsst : s = st := by
    rw [hP.1, hst] at hs
    exact (Option.some.inj hs).symm
  subst hsst
  refine ⟨hP.1, fun p hp => ?_⟩
  rw [withFormatter_loggers_ne h1 s.internal p l fm hp]
  exact hP.2 p hp

theorem SetConfig_leaves_other {formatter jsonFormatter : Int} {h h2 : Heap} {t r p : Ptr}
    {configs : frozen.Map} {st sp : standardLogger}
    (hok : standardLogger.SetConfig formatter jsonFormatter h t configs = .ok (h2, r))
    (hst : h.standardLoggers[t]? = some st) (hsp : h.standardLoggers[p]? = some sp)
    (hne : sp.internal ≠ st.internal) :
    h2.formatterOf p = h.formatterOf p ∧ h2.fieldsOf p = h.fieldsOf p := by
  obtain ⟨hsl, hlog⟩ := SetConfig_frame hok hst
  simp [Heap.formatterOf, Heap.fieldsOf, hsl, hsp, hlog sp.internal hne]

theorem PutFields_leaves_other {h h2 : Heap} {t r p : Ptr} {f : frozen.Map}
    (hok : standardLogger.PutFields h t f = .ok (h2, r)) (hne : p ≠ t) :
    h2.formatterOf p = h.formatterOf p ∧ h2.fieldsOf p = h.fieldsOf p := by
  obtain ⟨s, _, rfl, _⟩ := PutFields_ok_inv hok
  have hp := withFields_standardLoggers_ne h t p s f hne
  constructor
  · simp only [Heap.formatterOf, hp]
    rfl
  · simp only [Heap.fieldsOf, hp]

/-- C12: for every live logger `L` with copy `C = L.Copy()`, every call of `SetConfig` or
`PutFields` on `C` that returns leaves the formatter and the FieldSet of `L` as they were,
and every such call on `L` leaves those of `C` as they were; and these calls do take
effect on their own logger: `SetConfig` with any formatter selection installs the selected
formatter and `PutFields` installs the given FieldSet. -/
theorem Copy_independent (formatter jsonFormatter : Int) (h : Heap) (sl : Ptr)
    (hlive : h.live sl) :
    ∃ h2 c, standardLogger.Copy h sl = .ok (h2, c) ∧ c ≠ sl
      ∧ (∀ configs h3 r,
          standardLogger.SetConfig formatter jsonFormatter h2 c configs = .ok (h3, r) →
          h3.formatterOf sl = h2.formatterOf sl ∧ h3.fieldsOf sl = h2.fieldsOf sl)
      ∧ (∀ f h3 r, standardLogger.PutFields h2 c f = .ok (h3, r) →
          h3.formatterOf sl = h2.formatterOf sl ∧ h3.fieldsOf sl = h2.fieldsOf sl)
      ∧ (∀ configs h3 r,
          standardLogger.SetConfig formatter jsonFormatter h2 sl configs = .ok (h3, r) →
          h3.formatterOf c = h2.formatterOf c ∧ h3.fieldsOf c = h2.fieldsOf c)
      ∧ (∀ f h3 r, standardLogger.PutFields h2 sl f = .ok (h3, r) →
          h3.formatterOf c = h2.formatterOf c ∧ h3.fieldsOf c = h2.fieldsOf c)
      ∧ (∀ v : Int, ∀ p, p = c ∨ p = sl →
          ∃ h3, standardLogger.SetConfig formatter jsonFormatter h2 p
              (frozen.Map.single (Value.int formatter) (Value.int v)) = .ok (h3, p)
            ∧ h3.formatterOf p
                = some (if v = jsonFormatter then Formatter.json else Formatter.standard))
      ∧ (∀ f, ∀ p, p = c ∨ p = sl →
          ∃ h3, standardLogger.PutFields h2 p f = .ok (h3, p) ∧ h3.fieldsOf p = some f) := by
  obtain ⟨s, l, hs, hl⟩ := hlive
  have hs2 := alloc_standardLoggers_old h l s.fields sl s hs
  have hc2 := alloc_standardLoggers_new h l s.fields
  have hl2 := alloc_loggers_old h l s.fields s.internal l hl
  have hlc2 := alloc_loggers_new h l s.fields
  have hint : h.loggers.length ≠ s.internal := Nat.ne_of_gt (lt_of_getElem?_eq_some hl)
  have hptr : h.standardLoggers.length ≠ sl := Nat.ne_of_gt (lt_of_getElem?_eq_some hs)
  refine ⟨h.alloc l s.fields, h.standardLoggers.length, Copy_eq h sl s l hs hl, hptr,
    ?_, ?_, ?_, ?_, ?_, ?_⟩
  · intro configs h3 r hok
    exact SetConfig_leaves_other hok hc2 hs2 (Ne.symm hint)
  · intro f h3 r hok
    exact PutFields_leaves_other hok (Ne.symm hptr)
  · intro configs h3 r hok
    exact SetConfig_leaves_other hok hs2 hc2 hint
  · intro f h3 r hok
    exact PutFields_leaves_other hok hptr
  · intro v p hp
    rcases hp with rfl | rfl
    · obtain ⟨h3, hcall, hfmt, _⟩ := SetConfig_single formatter jsonFormatter
        (h.alloc l s.fields) h.standardLoggers.length v _ l hc2 hlc2
      exact ⟨h3, hcall, hfmt⟩
    · obtain ⟨h3, hcall, hfmt, _⟩ := SetConfig_single formatter jsonFormatter
        (h.alloc l s.fields) p v s l hs2 hl2
      exact ⟨h3, hcall, hfmt⟩
  · intro f p hp
    rcases hp with rfl | rfl
    · refine ⟨_, PutFields_eq _ _ _ f hc2, ?_⟩
      rw [fieldsOf_eq (withFields_standardLoggers_self _ _ _ f hc2)]
    · refine ⟨_, PutFields_eq _ _ _ f hs2, ?_⟩
      rw [fieldsOf_eq (withFields_standardLoggers_self _ _ _ f hs2)]

theorem Copy_independent_witness :
    sampleHeap.live 0
    ∧ ∃ h2 c, standardLogger.Copy sampleHeap 0 = .ok (h2, c) ∧ c ≠ 0
      ∧ (∀ configs h3 r, standardLogger.SetConfig 0 1 h2 c configs = .ok (h3, r) →
          h3.formatterOf 0 = h2.formatterOf 0 ∧ h3.fieldsOf 0 = h2.fieldsOf 0)
      ∧ (∀ f h3 r, standardLogger.PutFields h2 c f = .ok (h3, r) →
          h3.formatterOf 0 = h2.formatterOf 0 ∧ h3.fieldsOf 0 = h2.fieldsOf 0)
      ∧ (∀ configs h3 r, standardLogger.SetConfig 0 1 h2 0 configs = .ok (h3, r) →
          h3.formatterOf c = h2.formatterOf c ∧ h3.fieldsOf c = h2.fieldsOf c)
      ∧ (∀ f h3 r, standardLogger.PutFields h2 0 f = .ok (h3, r) →
          h3.formatterOf c = h2.formatterOf c ∧ h3.fieldsOf c = h2.fieldsOf c)
      ∧ (∀ v : Int, ∀ p, p = c ∨ p = 0 →
          ∃ h3, standardLogger.SetConfig 0 1 h2 p
              (frozen.Map.single (Value.int 0) (Value.int v)) = .ok (h3, p)
            ∧ h3.formatterOf p = some (if v = 1 then Formatter.json else Formatter.standard))
      ∧ (∀ f, ∀ p, p = c ∨ p = 0 →
          ∃ h3, standardLogger.PutFields h2 p f = .ok (h3, p) ∧ h3.fieldsOf p = some f) :=
  ⟨sampleHeap_live, Copy_independent 0 1 sampleHeap 0 sampleHeap_live⟩

/-! ## Theorems: the field renderer -/

theorem fieldLoop_eq_go (rest : List (Value × Value)) :
    ∀ acc : String,
      rest.foldl (fun b kv => b ++ (" " ++ kv.1.format ++ "=" ++ kv.2.format)) acc
        = String.intercalate.go acc " " (rest.map segment) := by
  induction rest with
  | nil => intro acc; rfl
  | cons kv tl ih =>
    intro acc
    simp only [List.foldl_cons, List.map_cons, String.intercalate.go]
    rw [ih]
    simp [segment, String.append_assoc]

theorem fieldLoop_extends (rest : List (Value × Value)) :
    ∀ acc : String, ∃ post,
      rest.foldl (fun b kv => b ++ (" " ++ kv.1.format ++ "=" ++ kv.2.format)) acc
        = acc ++ post := by
  induction rest with
  | nil => intro acc; exact ⟨"", by simp⟩
  | cons kv tl ih =>
    intro acc
    obtain ⟨post, hpost⟩ := ih (acc ++ (" " ++ kv.1.format ++ "=" ++ kv.2.format))
    exact ⟨(" " ++ kv.1.format ++ "=" ++ kv.2.format) ++ post, by
      rw [List.foldl_cons, hpost, String.append_assoc]⟩

theorem fieldLoop_contains (rest : List (Value × Value)) :
    ∀ (acc : String) (kv : Value × Value), kv ∈ rest → ∃ pre post,
      rest.foldl (fun b kv => b ++ (" " ++ kv.1.format ++ "=" ++ kv.2.format)) acc
        = pre ++ segment kv ++ post := by
  induction rest with
  | nil => intro acc kv hkv; cases hkv
  | cons hd tl ih =>
    intro acc kv hkv
    rcases List.mem_cons.mp hkv with rfl | hmem
    · obtain ⟨post, hpost⟩ :=
        fieldLoop_extends tl (acc ++ (" " ++ kv.1.format ++ "=" ++ kv.2.format))
      exact ⟨acc ++ " ", post, by
        rw [List.foldl_cons, hpost]
        simp [segment, String.append_assoc]⟩
    · exact ih _ kv hmem

theorem fieldLoop_last (init : List (Value × Value)) (kv : Value × Value) (acc : String) :
    ∃ pre,
      (init ++ [kv]).foldl (fun b kv => b ++ (" " ++ kv.1.format ++ "=" ++ kv.2.format)) acc
        = pre ++ segment kv := by
  refine ⟨init.foldl (fun b kv => b ++ (" " ++ kv.1.format ++ "=" ++ kv.2.format)) acc ++ " ", ?_⟩
  simp [List.foldl_append, segment, String.append_assoc]

/-- C13: `getFormattedField` returns the empty string for an empty FieldSet, and for every
FieldSet the segments `key=value`, one per entry in iteration order, joined by single
spaces: the result begins with the segment of the first entry and ends with the segment
of the last, and it contains the segment of every entry. -/
theorem getFormattedField_joined (f : frozen.Map) :
    (f.Count = 0 → getFormattedField f = "")
    ∧ getFormattedField f = " ".intercalate (f.Range.map segment)
    ∧ (∀ kv rest, f.Range = kv :: rest → ∃ post, getFormattedField f = segment kv ++ post)
    ∧ (∀ init kv, f.Range = init ++ [kv] → ∃ pre, getFormattedField f = pre ++ segment kv)
    ∧ (∀ kv ∈ f.Range, ∃ pre post, getFormattedField f = pre ++ segment kv ++ post) := by
  obtain ⟨kvs, hnd⟩ := f
  cases kvs with
  | nil =>
    refine ⟨fun _ => rfl, rfl, ?_, ?_, ?_⟩
    · intro kv rest h
      cases h
    · intro init kv h
      simp [frozen.Map.Range] at h
    · intro kv hkv
      cases hkv
  | cons hd tl =>
    have hval : getFormattedField ⟨hd :: tl, hnd⟩
        = tl.foldl (fun b kv => b ++ (" " ++ kv.1.format ++ "=" ++ kv.2.format))
            (segment hd) := by
      obtain ⟨k, v⟩ := hd
      simp [getFormattedField, frozen.Map.Count, frozen.Map.Range, segment]
    refine ⟨fun h0 => by simp [frozen.Map.Count] at h0, ?_, ?_, ?_, ?_⟩
    · rw [hval, fieldLoop_eq_go]
      rfl
    · intro kv rest h
      simp only [frozen.Map.Range, List.cons.injEq] at h
      obtain ⟨rfl, rfl⟩ := h
      rw [hval]
      exact fieldLoop_extends _ _
    · intro init kv h
      simp only [frozen.Map.Range] at h
      rw [hval]
      cases init with
      | nil =>
        simp only [List.nil_append, List.cons.injEq] at h
        obtain ⟨rfl, rfl⟩ := h
        exact ⟨"", by simp⟩
      | cons i0 itl =>
        simp only [List.cons_append, List.cons.injEq] at h
        obtain ⟨rfl, rfl⟩ := h
        exact fieldLoop_last itl kv _
    · intro kv hkv
      rw [hval]
      rcases List.mem_cons.mp hkv with rfl | hmem
      · obtain ⟨post, hpost⟩ := fieldLoop_extends tl (segment kv)
        exact ⟨"", post, by rw [hpost]; simp⟩
      · exact fieldLoop_contains tl _ kv hmem

theorem getFormattedField_joined_witness :
    getFormattedField frozen.NewMap = ""
    ∧ getFormattedField testFields = "byteVal=107 numberVal=1 stringVal=this is a sentence"
    ∧ (∃ pre post, getFormattedField testFields = pre ++ "numberVal=1" ++ post) :=
  ⟨(getFormattedField_joined frozen.NewMap).1 rfl,
    (getFormattedField_joined testFields).2.1,
    (getFormattedField_joined testFields).2.2.2.2
      (Value.str "numberVal", Value.int 1) (by decide)⟩

/-! ## Theorems: reachable heaps -/

theorem wellFormed_alloc (h : Heap) (l : logrus.Logger) (f : frozen.Map)
    (hwf : h.wellFormed)
    (hgood : l.Out = Writer.stderr ∧ l.Level = DebugLevel
      ∧ (l.Formatter = Formatter.standard ∨ l.Formatter = Formatter.json)) :
    (h.alloc l f).wellFormed := by
  constructor
  · intro s hmem
    simp only [Heap.alloc, List.mem_append, List.mem_singleton, List.length_append,
      List.length_singleton] at hmem ⊢
    rcases hmem with hold | rfl
    · exact Nat.lt_succ_of_lt (hwf.1 s hold)
    · exact Nat.lt_succ_self _
  · intro l0 hmem
    simp only [Heap.alloc, List.mem_append, List.mem_singleton] at hmem
    rcases hmem with hold | rfl
    · exact hwf.2 l0 hold
    · exact hgood

theorem wellFormed_withFields (h : Heap) (sl : Ptr) (s : standardLogger) (f : frozen.Map)
    (hwf : h.wellFormed) (hs : h.standardLoggers[sl]? = some s) :
    (h.withFields sl s f).wellFormed := by
  constructor
  · intro s0 hmem
    simp only [Heap.withFields] at hmem ⊢
    rcases List.mem_or_eq_of_mem_set hmem with hold | rfl
    · exact hwf.1 s0 hold
    · exact hwf.1 s (List.getElem?_mem hs)
  · exact hwf.2

theorem wellFormed_withFormatter (h : Heap) (p : Ptr) (l : logrus.Logger) (fm : Formatter)
    (hwf : h.wellFormed) (hl : h.loggers[p]? = some l)
    (hfm : fm = Formatter.json ∨ fm = Formatter.standard) :
    (h.withFormatter p l fm).wellFormed := by
  constructor
  · intro s hmem
    simp only [Heap.withFormatter, List.length_set] at hmem ⊢
    exact hwf.1 s hmem
  · intro l0 hmem
    simp only [Heap.withFormatter] at hmem
    rcases List.mem_or_eq_of_mem_set hmem with hold | rfl
    · exact hwf.2 l0 hold
    · obtain ⟨hout, hlevel, _⟩ := hwf.2 l (List.getElem?_mem hl)
      exact ⟨hout, hlevel, hfm.symm⟩

theorem wellFormed_live {h : Heap} (hwf : h.wellFormed) {sl : Ptr}
    (hsl : sl < h.standardLoggers.length) :
    ∃ s l, h.standardLoggers[sl]? = some s ∧ h.loggers[s.internal]? = some l
      ∧ l.Out = Writer.stderr ∧ l.Level = DebugLevel
      ∧ (l.Formatter = Formatter.standard ∨ l.Formatter = Formatter.json) := by
  have hs : h.standardLoggers[sl]? = some h.standardLoggers[sl] := List.getElem?_eq_getElem hsl
  have hint := hwf.1 _ (List.getElem?_mem hs)
  have hl : h.loggers[h.standardLoggers[sl].internal]?
      = some h.loggers[h.standardLoggers[sl].internal] := List.getElem?_eq_getElem hint
  exact ⟨_, _, hs, hl, hwf.2 _ (List.getElem?_mem hl)⟩

theorem Reachable.wellFormed {formatter jsonFormatter : Int} {h : Heap}
    (hr : Reachable formatter jsonFormatter h) : h.wellFormed := by
  induction hr with
  | empty =>
    exact ⟨fun s hs => (by cases hs), fun l hl => (by cases hl)⟩
  | newStandardLogger _ hcall ih =>
    rw [NewStandardLogger_eq] at hcall
    simp only [Except.ok.injEq, Prod.mk.injEq] at hcall
    rw [← hcall.1]
    exact wellFormed_alloc _ _ _ ih ⟨rfl, rfl, Or.inl rfl⟩
  | putFields _ hcall ih =>
    obtain ⟨s, hs, rfl, _⟩ := PutFields_ok_inv hcall
    exact wellFormed_withFields _ _ _ _ ih hs
  | setConfig _ hcall ih =>
    exact foldConfig_induct _ _ _ Heap.wellFormed
      (fun h1 s l fm hP _ hl hfm => wellFormed_withFormatter h1 s.internal l fm hP hl hfm)
      _ _ _ ih (SetConfig_ok_fold hcall).1
  | @copy h0 h2 sl p _ hcall ih =>
    cases hs : h0.standardLoggers[sl]? with
    | none =>
      rw [Copy_dangling h0 sl hs] at hcall
      cases hcall
    | some s =>
      have hint := ih.1 s (List.getElem?_mem hs)
      have hl : h0.loggers[s.internal]? = some h0.loggers[s.internal] :=
        List.getElem?_eq_getElem hint
      rw [Copy_eq h0 sl s _ hs hl] at hcall
      simp only [Except.ok.injEq, Prod.mk.injEq] at hcall
      rw [← hcall.1]
      exact wellFormed_alloc _ _ _ ih (ih.2 _ (List.getElem?_mem hl))

theorem sampleHeap_reachable : Reachable 0 1 sampleHeap :=
  Reachable.newStandardLogger Reachable.empty NewStandardLogger_empty

/-! ## Theorems: the logging calls -/

theorem Sprint_single (m : String) : Sprint [Value.str m] = m := by
  simp [Sprint, doPrint, Value.format]

theorem Log_enabled (rt : Runtime) (h : Heap) (p : Ptr) (data : Fields) (l : logrus.Logger)
    (level : Level) (args : List Value) (hl : h.loggers[p]? = some l)
    (hen : l.IsLevelEnabled level = true) (hpos : ¬ level ≤ PanicLevel) :
    logrus.Entry.Log rt h { Logger := p, Data := data } level args
      = logrus.Entry.write rt l
          { Time := rt.Now, Level := level, Message := Sprint args, Data := data } := by
  simp only [logrus.Entry.Log, logrus.Entry.log, Heap.readLogger, hl, bind, Except.bind, hen,
    hpos, if_true, if_false]
  cases logrus.Entry.write rt l
    { Time := rt.Now, Level := level, Message := Sprint args, Data := data } <;> rfl

theorem Logf_enabled (rt : Runtime) (h : Heap) (p : Ptr) (data : Fields) (l : logrus.Logger)
    (level : Level) (format : String) (args : List Value) (hl : h.loggers[p]? = some l)
    (hen : l.IsLevelEnabled level = true) (hpos : ¬ level ≤ PanicLevel) :
    logrus.Entry.Logf rt h { Logger := p, Data := data } level format args
      = logrus.Entry.write rt l
          { Time := rt.Now, Level := level, Message := rt.Sprintf format args, Data := data } := by
  simp only [logrus.Entry.Logf, Heap.readLogger, hl, bind, Except.bind, hen, if_true]
  have hlog := Log_enabled rt h p data l level [Value.str (rt.Sprintf format args)] hl hen hpos
  rw [Sprint_single] at hlog
  exact hlog

theorem setInfo_eq (h : Heap) (sl : Ptr) (s : standardLogger)
    (hs : h.standardLoggers[sl]? = some s) :
    standardLogger.setInfo h sl
      = .ok { Logger := s.internal, Data := [(keyFields, Any.fields s.fields)] } := by
  simp [standardLogger.setInfo, Heap.readStandardLogger, hs, logrus.Logger.WithFields, bind,
    Except.bind, pure, Except.pure]

theorem logging_eq (rt : Runtime) (h : Heap) (sl : Ptr) (s : standardLogger)
    (l : logrus.Logger) (hs : h.standardLoggers[sl]? = some s)
    (hl : h.loggers[s.internal]? = some l) (hlevel : l.Level = DebugLevel)
    (args : List Value) (format : String) :
    standardLogger.Debug rt h sl args
        = logrus.Entry.write rt l (entryWith rt.Now DebugLevel (Sprint args) s.fields)
    ∧ standardLogger.Debugf rt h sl format args
        = logrus.Entry.write rt l (entryWith rt.Now DebugLevel (rt.Sprintf format args) s.fields)
    ∧ standardLogger.Info rt h sl args
        = logrus.Entry.write rt l (entryWith rt.Now InfoLevel (Sprint args) s.fields)
    ∧ standardLogger.Infof rt h sl format args
        = logrus.Entry.write rt l (entryWith rt.Now InfoLevel (rt.Sprintf format args) s.fields) := by
  have hd : l.IsLevelEnabled DebugLevel = true := by
    simp [logrus.Logger.IsLevelEnabled, hlevel]
  have hi : l.IsLevelEnabled InfoLevel = true := by
    simp [logrus.Logger.IsLevelEnabled, hlevel, DebugLevel, InfoLevel]
  have hdp : ¬ DebugLevel ≤ PanicLevel := by decide
  have hip : ¬ InfoLevel ≤ PanicLevel := by decide
  refine ⟨?_, ?_, ?_, ?_⟩
  · simp only [standardLogger.Debug, setInfo_eq h sl s hs, bind, Except.bind]
    exact Log_enabled rt h _ _ l DebugLevel args hl hd hdp
  · simp only [standardLogger.Debugf, setInfo_eq h sl s hs, bind, Except.bind]
    exact Logf_enabled rt h _ _ l DebugLevel format args hl hd hdp
  · simp only [standardLogger.Info, setInfo_eq h sl s hs, bind, Except.bind]
    exact Log_enabled rt h _ _ l InfoLevel args hl hi hip
  · simp only [standardLogger.Infof, setInfo_eq h sl s hs, bind, Except.bind]
    exact Logf_enabled rt h _ _ l InfoLevel format args hl hi hip

theorem write_standard (rt : Runtime) (l : logrus.Logger) (t : Time) (level : Level)
    (m : String) (f : frozen.Map) (hfmt : l.Formatter = Formatter.standard) (hm : m ≠ "") :
    logrus.Entry.write rt l (entryWith t level m f)
      = .ok [(l.Out, (t.FormatRFC3339Nano ++ " "
          ++ (if f.Count ≠ 0 then getFormattedField f ++ " " else ""))
          ++ (ToUpper (Level.String level) ++ " ") ++ m ++ " \n")] := by
  have hF : standardFormat.Format (entryWith t level m f) = _ :=
    @Format_of_fieldSet (entryWith t level m f) f rfl
  have h1 : (" \n" : String) = " " ++ "\n" := rfl
  simp only [logrus.Entry.write, hfmt, Formatter.Format, hF, bind, Except.bind, pure,
    Except.pure, Option.getD]
  simp [entryWith, hm, h1, String.append_assoc]

/-- C14: for every logger of a reachable heap and every non-empty message `m`, `Debug(m)`
and `Debugf("%s", m)` write, through the formatter installed in the logger, the entry
stamped with the current time, level Debug, message `m` and the FieldSet the logger holds
(the one given by a `PutFields` just before, if there was one); `Info(m)` and
`Infof("%s", m)` do the same at level Info. With the text formatter each call makes
exactly one write, to the output of the logger, of a line that contains `DEBUG m`,
respectively `INFO m`. -/
theorem logging_calls (formatter jsonFormatter : Int) (rt : Runtime) (h : Heap) (sl : Ptr)
    (m : String) (hr : Reachable formatter jsonFormatter h)
    (hsl : sl < h.standardLoggers.length) (hm : m ≠ "")
    (hfmt : rt.Sprintf "%s" [Value.str m] = m) :
    ∃ s l, h.standardLoggers[sl]? = some s ∧ h.loggers[s.internal]? = some l
      ∧ standardLogger.Debug rt h sl [Value.str m]
          = logrus.Entry.write rt l (entryWith rt.Now DebugLevel m s.fields)
      ∧ standardLogger.Debugf rt h sl "%s" [Value.str m]
          = logrus.Entry.write rt l (entryWith rt.Now DebugLevel m s.fields)
      ∧ standardLogger.Info rt h sl [Value.str m]
          = logrus.Entry.write rt l (entryWith rt.Now InfoLevel m s.fields)
      ∧ standardLogger.Infof rt h sl "%s" [Value.str m]
          = logrus.Entry.write rt l (entryWith rt.Now InfoLevel m s.fields)
      ∧ (∀ f, ∃ h2, standardLogger.PutFields h sl f = .ok (h2, sl)
          ∧ standardLogger.Debug rt h2 sl [Value.str m]
              = logrus.Entry.write rt l (entryWith rt.Now DebugLevel m f)
          ∧ standardLogger.Info rt h2 sl [Value.str m]
              = logrus.Entry.write rt l (entryWith rt.Now InfoLevel m f))
      ∧ (l.Formatter = Formatter.standard →
          (∃ pre post, standardLogger.Debug rt h sl [Value.str m]
              = .ok [(l.Out, pre ++ ("DEBUG " ++ m) ++ post)]
            ∧ standardLogger.Debugf rt h sl "%s" [Value.str m]
              = .ok [(l.Out, pre ++ ("DEBUG " ++ m) ++ post)])
          ∧ (∃ pre post, standardLogger.Info rt h sl [Value.str m]
              = .ok [(l.Out, pre ++ ("INFO " ++ m) ++ post)]
            ∧ standardLogger.Infof rt h sl "%s" [Value.str m]
              = .ok [(l.Out, pre ++ ("INFO " ++ m) ++ post)])) := by
  obtain ⟨s, l, hs, hl, _, hlevel, _⟩ := wellFormed_live hr.wellFormed hsl
  obtain ⟨hD, hDf, hI, hIf⟩ := logging_eq rt h sl s l hs hl hlevel [Value.str m] "%s"
  rw [Sprint_single] at hD hI
  rw [hfmt] at hDf hIf
  refine ⟨s, l, hs, hl, hD, hDf, hI, hIf, ?_, ?_⟩
  · intro f
    have hs2 := withFields_standardLoggers_self h sl s f hs
    have hl2 : (h.withFields sl s f).loggers[s.internal]? = some l := hl
    obtain ⟨hD2, _, hI2, _⟩ := logging_eq rt (h.withFields sl s f) sl { s with fields := f } l
      hs2 hl2 hlevel [Value.str m] "%s"
    rw [Sprint_single] at hD2 hI2
    exact ⟨_, PutFields_eq h sl s f hs, hD2, hI2⟩
  · intro hstd
    have hdebug : ToUpper (Level.String DebugLevel) ++ " " = "DEBUG " := by decide
    have hinfo : ToUpper (Level.String InfoLevel) ++ " " = "INFO " := by decide
    have hwd := write_standard rt l rt.Now DebugLevel m s.fields hstd hm
    have hwi := write_standard rt l rt.Now InfoLevel m s.fields hstd hm
    rw [hdebug, String.append_assoc _ "DEBUG " m] at hwd
    rw [hinfo, String.append_assoc _ "INFO " m] at hwi
    constructor
    · exact ⟨_, " \n", hD.trans hwd, hDf.trans hwd⟩
    · exact ⟨_, " \n", hI.trans hwi, hIf.trans hwi⟩

theorem logging_calls_witness :
    Reachable 0 1 sampleHeap ∧ 0 < sampleHeap.standardLoggers.length ∧ "hello" ≠ ""
    ∧ sampleRuntime.Sprintf "%s" [Value.str "hello"] = "hello"
    ∧ ∃ s l, sampleHeap.standardLoggers[0]? = some s ∧ sampleHeap.loggers[s.internal]? = some l
      ∧ standardLogger.Debug sampleRuntime sampleHeap 0 [Value.str "hello"]
          = logrus.Entry.write sampleRuntime l
              (entryWith sampleRuntime.Now DebugLevel "hello" s.fields)
      ∧ standardLogger.Debugf sampleRuntime sampleHeap 0 "%s" [Value.str "hello"]
          = logrus.Entry.write sampleRuntime l
              (entryWith sampleRuntime.Now DebugLevel "hello" s.fields)
      ∧ standardLogger.Info sampleRuntime sampleHeap 0 [Value.str "hello"]
          = logrus.Entry.write sampleRuntime l
              (entryWith sampleRuntime.Now InfoLevel "hello" s.fields)
      ∧ standardLogger.Infof sampleRuntime sampleHeap 0 "%s" [Value.str "hello"]
          = logrus.Entry.write sampleRuntime l
              (entryWith sampleRuntime.Now InfoLevel "hello" s.fields)
      ∧ (∀ f, ∃ h2, standardLogger.PutFields sampleHeap 0 f = .ok (h2, 0)
          ∧ standardLogger.Debug sampleRuntime h2 0 [Value.str "hello"]
              = logrus.Entry.write sampleRuntime l
                  (entryWith sampleRuntime.Now DebugLevel "hello" f)
          ∧ standardLogger.Info sampleRuntime h2 0 [Value.str "hello"]
              = logrus.Entry.write sampleRuntime l
                  (entryWith sampleRuntime.Now InfoLevel "hello" f))
      ∧ (l.Formatter = Formatter.standard →
          (∃ pre post, standardLogger.Debug sampleRuntime sampleHeap 0 [Value.str "hello"]
              = .ok [(l.Out, pre ++ ("DEBUG " ++ "hello") ++ post)]
            ∧ standardLogger.Debugf sampleRuntime sampleHeap 0 "%s" [Value.str "hello"]
              = .ok [(l.Out, pre ++ ("DEBUG " ++ "hello") ++ post)])
          ∧ (∃ pre post, standardLogger.Info sampleRuntime sampleHeap 0 [Value.str "hello"]
              = .ok [(l.Out, pre ++ ("INFO " ++ "hello") ++ post)]
            ∧ standardLogger.Infof sampleRuntime sampleHeap 0 "%s" [Value.str "hello"]
              = .ok [(l.Out, pre ++ ("INFO " ++ "hello") ++ post)])) :=
  ⟨sampleHeap_reachable, by decide, by decide, rfl,
    logging_calls 0 1 sampleRuntime sampleHeap 0 "hello" sampleHeap_reachable (by decide)
      (by decide) rfl⟩

theorem Debug_sample :
    standardLogger.Debug sampleRuntime sampleHeap 0 [Value.str "hello"]
      = .ok [(Writer.stderr, "2020-03-04T05:06:07.5Z DEBUG hello \n")] := rfl

/-! ## Theorems: the new logger, the entry of a logging call, and the rest -/

/-- The threshold `DebugLevel` does not enable `TraceLevel`, a severity that no method of
the standard logger emits. -/
theorem trace_above_threshold (l : logrus.Logger) (hl : l.Level = DebugLevel) :
    l.IsLevelEnabled TraceLevel = false := by
  simp [logrus.Logger.IsLevelEnabled, hl, DebugLevel, TraceLevel]

theorem fieldBlock_of_nil {entry : Entry} (h : Fields.get entry.Data keyFields = Any.nil) :
    standardFormat.fieldBlock entry = .ok "" := by
  simp [standardFormat.fieldBlock, h, Any.isNil]

/-- C16: for every logger of a reachable heap, the entry `setInfo` builds for a logging
call carries the FieldSet of the logger under `keyFields`, so the assertion
`.(frozen.Map)` of the formatters succeeds on it, and the text formatter returns bytes and
a nil error for that entry whatever the time, level and message. Both formatters return
for an entry with no value under `keyFields` what they return for an entry with the same
time, level and message that carries an empty FieldSet. -/
theorem setInfo_carries_fieldSet (formatter jsonFormatter : Int) (h : Heap) (sl : Ptr)
    (hr : Reachable formatter jsonFormatter h) (hsl : sl < h.standardLoggers.length) :
    (∃ s entry, h.standardLoggers[sl]? = some s ∧ standardLogger.setInfo h sl = .ok entry
      ∧ Fields.get entry.Data keyFields = Any.fields s.fields
      ∧ (Fields.get entry.Data keyFields).assertMap = .ok s.fields
      ∧ ∀ (t : Time) (level : Level) (msg : String), ∃ out,
          standardFormat.Format { Time := t, Level := level, Message := msg, Data := entry.Data }
            = .ok (some out, none))
    ∧ (∀ (Marshal : GoMap JSONValue → Option String × Option Error) (e e2 : Entry)
        (f : frozen.Map),
        Fields.get e.Data keyFields = Any.nil → e2.fieldSet = some f → f.Count = 0 →
        e2.Time = e.Time → e2.Level = e.Level → e2.Message = e.Message →
        standardFormat.Format e = standardFormat.Format e2
        ∧ jsonFormat.Format Marshal e = jsonFormat.Format Marshal e2) := by
  obtain ⟨s, l, hs, _⟩ := wellFormed_live hr.wellFormed hsl
  constructor
  · refine ⟨s, _, hs, setInfo_eq h sl s hs, rfl, rfl, ?_⟩
    intro t level msg
    exact ⟨_, @Format_of_fieldSet
      { Time := t, Level := level, Message := msg, Data := [(keyFields, Any.fields s.fields)] }
      s.fields rfl⟩
  · intro Marshal e e2 f hnil hf h0 hT hL hM
    have hb1 := fieldBlock_of_nil hnil
    have hb2 := fieldBlock_of_fieldSet hf
    simp only [h0, ne_eq, not_true_eq_false, if_false] at hb2
    have hj1 : jsonFormat.jsonFile e = .ok (jsonFormat.base e) := by
      rw [jsonFile_cases, hnil]
    have hj2 : jsonFormat.jsonFile e2 = .ok (jsonFormat.base e2) := by
      rw [jsonFile_cases, fieldSet_eq_some hf]
      simp [h0]
    have hbase : jsonFormat.base e2 = jsonFormat.base e := by
      simp [jsonFormat.base, hT, hL, hM]
    constructor
    · simp only [standardFormat.Format, hb1, hb2, hT, hL, hM]
    · simp only [jsonFormat.Format, hj1, hj2, hbase]

theorem setInfo_carries_fieldSet_witness :
    Reachable 0 1 sampleHeap ∧ 0 < sampleHeap.standardLoggers.length
    ∧ (∃ s entry, sampleHeap.standardLoggers[0]? = some s
      ∧ standardLogger.setInfo sampleHeap 0 = .ok entry
      ∧ Fields.get entry.Data keyFields = Any.fields s.fields
      ∧ (Fields.get entry.Data keyFields).assertMap = .ok s.fields
      ∧ ∀ (t : Time) (level : Level) (msg : String), ∃ out,
          standardFormat.Format { Time := t, Level := level, Message := msg, Data := entry.Data }
            = .ok (some out, none))
    ∧ (standardFormat.Format { Time := sampleTime, Level := InfoLevel, Message := "hi", Data := [] }
          = standardFormat.Format (entryWith sampleTime InfoLevel "hi" frozen.NewMap)
      ∧ jsonFormat.Format sampleMarshal
            { Time := sampleTime, Level := InfoLevel, Message := "hi", Data := [] }
          = jsonFormat.Format sampleMarshal (entryWith sampleTime InfoLevel "hi" frozen.NewMap)) :=
  ⟨sampleHeap_reachable, by decide,
    (setInfo_carries_fieldSet 0 1 sampleHeap 0 sampleHeap_reachable (by decide)).1,
    (setInfo_carries_fieldSet 0 1 sampleHeap 0 sampleHeap_reachable (by decide)).2
      sampleMarshal { Time := sampleTime, Level := InfoLevel, Message := "hi", Data := [] }
      (entryWith sampleTime InfoLevel "hi" frozen.NewMap) frozen.NewMap rfl rfl rfl rfl rfl rfl⟩

/-- The statement of C17 fails: the string `"yaml"` is neither the text selector nor the
JSON selector, yet `SetConfig` with the formatter key bound to it does not return: the
assertion `i.Value().(int)` panics. -/
theorem SetConfig_yaml_panics :
    ¬ (∀ (formatter jsonFormatter textFormatter : Int) (h : Heap) (sl : Ptr) (v : Value),
        h.live sl → v ≠ Value.int textFormatter → v ≠ Value.int jsonFormatter →
        ∃ h2, standardLogger.SetConfig formatter jsonFormatter h sl
            (frozen.Map.single (Value.int formatter) v) = .ok (h2, sl)
          ∧ h2.formatterOf sl = some Formatter.standard) := by
  intro hclaim
  have hpanic : standardLogger.SetConfig 0 1 sampleHeap 0 yamlConfig
      = .error Panic.typeAssertion := rfl
  obtain ⟨h2, hok, _⟩ := hclaim 0 1 0 sampleHeap 0 (Value.str "yaml") sampleHeap_live
    (by decide) (by decide)
  have hcfg : frozen.Map.single (Value.int 0) (Value.str "yaml") = yamlConfig := rfl
  rw [hcfg, hpanic] at hok
  cases hok

/-- C17 (amended): for every live logger and every value of type `int` other than the
JSON selector, so also for every `int` that is neither the text nor the JSON selector,
`SetConfig` with the formatter key bound to that value returns normally, with the pointer
it was called on, and installs the text formatter, leaving the FieldSet as it was. With
the formatter key bound to a value that is not of type `int` (a string, a rune, a
boolean, ...) it panics on the type assertion, and with an `int` key other than the
formatter key it panics with `unknown configuration`. -/
theorem SetConfig_default_formatter (formatter jsonFormatter : Int) (h : Heap) (sl : Ptr)
    (v : Int) (hlive : h.live sl) (hv : v ≠ jsonFormatter) :
    (∃ h2, standardLogger.SetConfig formatter jsonFormatter h sl
        (frozen.Map.single (Value.int formatter) (Value.int v)) = .ok (h2, sl)
      ∧ h2.formatterOf sl = some Formatter.standard
      ∧ h2.fieldsOf sl = h.fieldsOf sl)
    ∧ (∀ w : Value, w.isInt = false →
        standardLogger.SetConfig formatter jsonFormatter h sl
          (frozen.Map.single (Value.int formatter) w) = .error Panic.typeAssertion)
    ∧ (∀ k : Int, k ≠ formatter →
        standardLogger.SetConfig formatter jsonFormatter h sl
          (frozen.Map.single (Value.int k) (Value.int v)) = .error Panic.unknownConfiguration) := by
  obtain ⟨s, l, hs, hl⟩ := hlive
  refine ⟨?_, ?_, ?_⟩
  · obtain ⟨h2, hcall, hfmt, hfields⟩ := SetConfig_single formatter jsonFormatter h sl v s l hs hl
    exact ⟨h2, hcall, by simpa [hv] using hfmt, hfields⟩
  · intro w hw
    exact SetConfig_first_bad formatter jsonFormatter h sl _ ⟨s, l, hs, hl⟩ _ []
      (Value.int formatter, w) [] rfl (fun x hx => by cases hx)
      (fun h0 => applyConfig_bad_value formatter jsonFormatter sl h0 _ rfl hw)
  · intro k hk
    have hfold := foldConfig_unknown formatter jsonFormatter sl
      [(Value.int k, Value.int v)] h ⟨s, l, hs, hl⟩
      (by simp [Value.isInt])
      ⟨(Value.int k, Value.int v), by simp, by simpa using hk⟩
    simp [standardLogger.SetConfig, frozen.Map.Range, frozen.Map.single, hfold, bind,
      Except.bind]

theorem SetConfig_default_formatter_witness :
    sampleHeap.live 0 ∧ (7 : Int) ≠ 1
    ∧ (∃ h2, standardLogger.SetConfig 0 1 sampleHeap 0
        (frozen.Map.single (Value.int 0) (Value.int 7)) = .ok (h2, 0)
      ∧ h2.formatterOf 0 = some Formatter.standard
      ∧ h2.fieldsOf 0 = sampleHeap.fieldsOf 0)
    ∧ standardLogger.SetConfig 0 1 sampleHeap 0
        (frozen.Map.single (Value.int 0) (Value.str "yaml")) = .error Panic.typeAssertion
    ∧ standardLogger.SetConfig 0 1 sampleHeap 0
        (frozen.Map.single (Value.int 0) (Value.int32 107)) = .error Panic.typeAssertion
    ∧ (∀ k : Int, k ≠ 0 →
        standardLogger.SetConfig 0 1 sampleHeap 0
          (frozen.Map.single (Value.int k) (Value.int 7)) = .error Panic.unknownConfiguration) :=
  ⟨sampleHeap_live, by decide,
    (SetConfig_default_formatter 0 1 sampleHeap 0 7 sampleHeap_live (by decide)).1,
    (SetConfig_default_formatter 0 1 sampleHeap 0 7 sampleHeap_live (by decide)).2.1
      (Value.str "yaml") rfl,
    (SetConfig_default_formatter 0 1 sampleHeap 0 7 sampleHeap_live (by decide)).2.1
      (Value.int32 107) rfl,
    (SetConfig_default_formatter 0 1 sampleHeap 0 7 sampleHeap_live (by decide)).2.2⟩

/-- C18: the text rendering is not injective. With the same time and level, the FieldSet
`a ↦ "1 b=2"` and the FieldSet `a ↦ "1", b ↦ "2"` give the same line for the same message,
and the FieldSet `a ↦ "x INFO y"` with message `z` gives the same line as the FieldSet
`a ↦ "x"` with message `y INFO z`. -/
theorem standardFormat_Format_not_injective :
    (mergedFields.kvs ≠ splitFields.kvs
      ∧ standardFormat.Format (entryWith sampleTime InfoLevel "m" mergedFields)
        = standardFormat.Format (entryWith sampleTime InfoLevel "m" splitFields)
      ∧ standardFormat.Format (entryWith sampleTime InfoLevel "m" mergedFields)
        = .ok (some "2020-03-04T05:06:07.5Z a=1 b=2 INFO m \n", none))
    ∧ ((levelInValueFields.kvs ≠ plainFields.kvs ∧ "z" ≠ "y INFO z")
      ∧ standardFormat.Format (entryWith sampleTime InfoLevel "z" levelInValueFields)
        = standardFormat.Format (entryWith sampleTime InfoLevel "y INFO z" plainFields)
      ∧ standardFormat.Format (entryWith sampleTime InfoLevel "z" levelInValueFields)
        = .ok (some "2020-03-04T05:06:07.5Z a=x INFO y INFO z \n", none))
    ∧ ∃ e1 e2 : Entry, e1.Time = e2.Time ∧ e1.Level = e2.Level
        ∧ (e1.fieldSet.map (fun f => f.kvs), e1.Message)
            ≠ (e2.fieldSet.map (fun f => f.kvs), e2.Message)
        ∧ standardFormat.Format e1 = standardFormat.Format e2 := by
  refine ⟨⟨by decide, rfl, rfl⟩, ⟨⟨by decide, by decide⟩, rfl, rfl⟩, ?_⟩
  refine ⟨entryWith sampleTime InfoLevel "m" mergedFields,
    entryWith sampleTime InfoLevel "m" splitFields, rfl, rfl, ?_, rfl⟩
  decide

end Log
